import Mathlib

/-!
Verification of the iterative step-time solver (itersolve.c).

This file gives a shallow embedding of the solver over exact rationals:
doubles become `ℚ`, the kinematic projection callback becomes a function
parameter `cb : ℚ → ℚ`, the step compressor becomes a trace of calls whose
status codes are driven by a function `ℕ → ℤ` of the call index, and the
unbounded C loops become fuel-indexed recursions returning `Option`
(`none` = fuel exhausted).  Ghost fields (the list of filter appends, the
list of range-solve calls, the boolean recording whether the root-finder
loop exited through its convergence break) record observable events; they
do not influence control flow or computed values.
-/

/-- Status code returned by the step compressor and propagated by the
solver (C `int32_t`). -/
abbrev Status := ℤ

/-- C constant `SDS_CHECK_TIME` (0.001 s). -/
def SDS_CHECK_TIME : ℚ := 1/1000

/-- C constant `SDS_FILTER_TIME` (0.00075 s). -/
def SDS_FILTER_TIME : ℚ := 3/4000

/-- C constant `SEEK_TIME_RESET` (0.0001 s). -/
def SEEK_TIME_RESET : ℚ := 1/10000

/-- The 1e-9 s tolerance used by the root finder and several tie-breakers. -/
def timeEps : ℚ := 1/1000000000

/-- C `signbit` on exact rationals (there is no negative zero in `ℚ`). -/
def signbit (x : ℚ) : Bool := decide (x < 0)

/-- C `struct coord`. -/
structure coord where
  x : ℚ := 0
  y : ℚ := 0
  z : ℚ := 0
deriving DecidableEq

/-- C `struct move` (trapq move): start time, duration, velocity
coefficients and direction data read by projection callbacks. -/
structure move where
  print_time : ℚ := 0
  move_t : ℚ := 0
  start_v : ℚ := 0
  half_accel : ℚ := 0
  start_pos : coord := {}
  axes_r : coord := {}
deriving DecidableEq

/-- C `struct stepper_kinematics` (the fields the solver reads and
writes; the callback, queue and compressor handles are passed
separately).  `active_x/y/z` are the `AF_X/AF_Y/AF_Z` bits of
`active_flags`. -/
structure stepper_kinematics where
  step_dist : ℚ := 0
  commanded_pos : ℚ := 0
  next_step_time : ℚ := 0
  next_move_print_time : ℚ := 0
  next_step_dir : Bool := false
  last_flush_time : ℚ := 0
  last_move_time : ℚ := 0
  gen_steps_pre_active : ℚ := 0
  gen_steps_post_active : ℚ := 0
  active_x : Bool := false
  active_y : Bool := false
  active_z : Bool := false
deriving DecidableEq

/-- One invocation of `stepcompress_append`, with the status it returned
(ghost trace of the step sink). -/
structure SinkCall where
  sdir : Bool
  mtime : ℚ
  stime : ℚ
  status : Status
deriving DecidableEq

/-- The state of the step sink: the trace of every `stepcompress_append`
call made so far. -/
structure SinkState where
  calls : List SinkCall := []
deriving DecidableEq

/-- The step compressor: the status of the n-th call is prescribed by the
environment function `f` (0 models an always-succeeding sink). -/
def stepcompress_append (f : ℕ → Status) (ss : SinkState) (sdir : Bool)
    (mtime stime : ℚ) : Status × SinkState :=
  let r := f ss.calls.length
  (r, ⟨ss.calls ++ [⟨sdir, mtime, stime, r⟩]⟩)

/-- C `sds_commit`: forward the pending step to the sink and clear the
pending slot (`next_move_print_time = 0` encodes "no pending step"). -/
def sds_commit (f : ℕ → Status) (sk : stepper_kinematics) (ss : SinkState) :
    Status × stepper_kinematics × SinkState :=
  let mtime := sk.next_move_print_time
  let stime := sk.next_step_time
  let sk' := {sk with next_move_print_time := 0}
  let r := stepcompress_append f ss sk.next_step_dir mtime stime
  (r.1, sk', r.2)

/-- C `sds_append`: the reversal-filter append.  A pending step followed
within `SDS_FILTER_TIME` (in combined move+step time) by a step in the
opposite direction cancels both; otherwise the pending step is committed
and the new candidate becomes pending. -/
def sds_append (f : ℕ → Status) (sk : stepper_kinematics) (ss : SinkState)
    (sdir : Bool) (move_print_time step_time : ℚ) :
    Status × stepper_kinematics × SinkState :=
  if sk.next_move_print_time ≠ 0 ∧ sdir ≠ sk.next_step_dir ∧
      (move_print_time - sk.next_move_print_time)
        + (step_time - sk.next_step_time) < SDS_FILTER_TIME then
    (0, {sk with next_move_print_time := 0, next_step_dir := sdir}, ss)
  else if sk.next_move_print_time ≠ 0 then
    let r := sds_commit f sk ss
    if r.1 ≠ 0 then r
    else (0, {r.2.1 with next_move_print_time := move_print_time,
                         next_step_time := step_time,
                         next_step_dir := sdir}, r.2.2)
  else
    (0, {sk with next_move_print_time := move_print_time,
                 next_step_time := step_time,
                 next_step_dir := sdir}, ss)

/-- C `sds_flush`: commit the pending step if it is at least
`SDS_FILTER_TIME` older (in combined move+step time) than the flush
point; otherwise keep it pending. -/
def sds_flush (f : ℕ → Status) (sk : stepper_kinematics) (ss : SinkState)
    (move_print_time step_time : ℚ) :
    Status × stepper_kinematics × SinkState :=
  if sk.next_move_print_time ≠ 0 ∧
      (move_print_time - sk.next_move_print_time)
        + (step_time - sk.next_step_time) ≥ SDS_FILTER_TIME then
    sds_commit f sk ss
  else (0, sk, ss)

/-- C `struct timepos`. -/
structure timepos where
  time : ℚ
  position : ℚ
deriving DecidableEq

/-- State of the false-position loop in `itersolve_find_step`: the
current bracket (positions offset by the target) and the best guess
(actual position). -/
structure fsstate where
  low : timepos
  high : timepos
  best : timepos
deriving DecidableEq

/-- The false-position interpolation of the root of the bracket. -/
def fs_guess (s : fsstate) : ℚ :=
  (s.low.time * s.high.position - s.high.time * s.low.position)
    / (s.high.position - s.low.position)

/-- The `for (;;)` loop of `itersolve_find_step`, fuel-indexed.  The
boolean is a ghost flag: `true` iff the loop exited through its
convergence break within the given fuel. -/
def findStepAux (cb : ℚ → ℚ) (target : ℚ) (hs : Bool) :
    ℕ → fsstate → timepos × Bool
  | 0, s => (s.best, false)
  | n+1, s =>
    let g := fs_guess s
    if |g - s.best.time| ≤ timeEps then (s.best, true)
    else
      let bp := cb g
      let gp := bp - target
      let s' : fsstate :=
        if signbit gp = hs then ⟨s.low, ⟨g, gp⟩, ⟨g, bp⟩⟩
        else ⟨⟨g, gp⟩, s.high, ⟨g, bp⟩⟩
      findStepAux cb target hs n s'

/-- C `itersolve_find_step`: find the next step time by the method of
false position between the `low`/`high` bracket. -/
def itersolve_find_step (cb : ℚ → ℚ) (fsFuel : ℕ) (low high : timepos)
    (target : ℚ) : timepos :=
  let best := high
  let lowo : timepos := ⟨low.time, low.position - target⟩
  let higho : timepos := ⟨high.time, high.position - target⟩
  if higho.position = 0 then best
  else if signbit higho.position = signbit lowo.position then
    ⟨lowo.time, target⟩
  else (findStepAux cb target (signbit higho.position) fsFuel
          ⟨lowo, higho, best⟩).1

/-- The `do { high.time = last.time + seek; seek += seek } while
(high.time <= low.time)` widening loop of the range solver, with an
explicit iteration budget (the wrapper `widenHigh` supplies a provably
sufficient budget). -/
def widenIter (lastT lowT : ℚ) : ℚ → ℕ → ℚ × ℚ
  | seek, 0 => (lastT + seek, seek + seek)
  | seek, n+1 =>
    let ht := lastT + seek
    if ht ≤ lowT then widenIter lastT lowT (seek + seek) n
    else (ht, seek + seek)

/-- The widening loop with a sufficient budget: returns the new
`high.time` and the new (doubled) seek delta. -/
def widenHigh (lastT lowT seek : ℚ) : ℚ × ℚ :=
  widenIter lastT lowT seek (((lowT - lastT) / seek).ceil.toNat + 1)

/-- Ghost record of one call to `sds_append` from the range solver:
direction, the two time arguments, and the `last.position` value the
solver moves to for this step (`target ± half_step`). -/
structure StepAppend where
  sdir : Bool
  mtime : ℚ
  stime : ℚ
  newpos : ℚ
deriving DecidableEq

/-- State threaded by one execution of `itersolve_gen_steps_range`:
stepper, sink, the solver locals, and the ghost append log. -/
structure GenState where
  sk : stepper_kinematics
  ss : SinkState
  last : timepos
  low : timepos
  high : timepos
  seek_time_delta : ℚ
  sdir : Bool
  is_dir_change : Bool
  log : List StepAppend := []
deriving DecidableEq

/-- Apply the optional `post_cb` hook. -/
def applyPost : Option (stepper_kinematics → stepper_kinematics) →
    stepper_kinematics → stepper_kinematics
  | none, sk => sk
  | some g, sk => g sk

/-- The fall-through tail of the range-solver loop: exit the loop when
`high.time` has reached the end of the range (flushing the filter,
publishing `commanded_pos` and invoking `post_cb`), otherwise widen the
search bracket.  `Sum.inl` = loop exit with a status, `Sum.inr` = the
widened state to continue with. -/
def gen_widen (cb : ℚ → ℚ) (f : ℕ → Status)
    (postCb : Option (stepper_kinematics → stepper_kinematics))
    (pt end_ : ℚ) (st : GenState) : (Status × GenState) ⊕ GenState :=
  if st.high.time ≥ end_ then
    let r := sds_flush f st.sk st.ss pt end_
    if r.1 ≠ 0 then Sum.inl (r.1, {st with sk := r.2.1, ss := r.2.2})
    else
      let sk2 := {r.2.1 with commanded_pos := st.last.position}
      Sum.inl (0, {st with sk := applyPost postCb sk2, ss := r.2.2})
  else
    let low' := st.high
    let w := widenHigh st.last.time low'.time st.seek_time_delta
    let ht := if w.1 > end_ then end_ else w.1
    Sum.inr {st with low := low', high := ⟨ht, cb ht⟩,
                     seek_time_delta := w.2}

/-- The `for (;;)` loop of `itersolve_gen_steps_range`, fuel-indexed
(`none` = fuel exhausted).  `pt` is `m->print_time`, `half` is
`0.5 * step_dist`, `end_` is the move-relative end of the range. -/
def gen_loop (cb : ℚ → ℚ) (f : ℕ → Status)
    (postCb : Option (stepper_kinematics → stepper_kinematics))
    (pt half end_ : ℚ) (fsFuel : ℕ) :
    ℕ → GenState → Option (Status × GenState)
  | 0, _ => none
  | n+1, st =>
    let diff := st.high.position - st.last.position
    let dist := if st.sdir then diff else -diff
    if dist ≥ half then
      let target := st.last.position + (if st.sdir then half else -half)
      let next := itersolve_find_step cb fsFuel st.low st.high target
      let r := sds_append f st.sk st.ss st.sdir pt next.time
      let newpos := target + (if st.sdir then half else -half)
      let st1 := {st with sk := r.2.1, ss := r.2.2,
                          log := st.log ++ [⟨st.sdir, pt, next.time, newpos⟩]}
      if r.1 ≠ 0 then some (r.1, st1)
      else
        let sd1 := next.time - st.last.time
        let sd2 := if sd1 < timeEps then timeEps else sd1
        let sd3 := if st.is_dir_change ∧ sd2 > SEEK_TIME_RESET then
            SEEK_TIME_RESET else sd2
        let st2 := {st1 with seek_time_delta := sd3, is_dir_change := false,
                             last := ⟨next.time, newpos⟩, low := next}
        if next.time < st.high.time then gen_loop cb f postCb pt half end_ fsFuel n st2
        else (gen_widen cb f postCb pt end_ st2).elim some
          (gen_loop cb f postCb pt half end_ fsFuel n)
    else if dist > 0 then
      let st1 :=
        if st.sk.next_move_print_time ≠ 0 then
          let r := sds_commit f st.sk st.ss
          {st with sk := r.2.1, ss := r.2.2}
        else st
      (gen_widen cb f postCb pt end_ st1).elim some
        (gen_loop cb f postCb pt half end_ fsFuel n)
    else if dist < -(half + timeEps) then
      let sd' := if st.seek_time_delta > SEEK_TIME_RESET then SEEK_TIME_RESET
        else st.seek_time_delta
      let st1 := {st with is_dir_change := true, seek_time_delta := sd'}
      if st.low.time > st.last.time then
        gen_loop cb f postCb pt half end_ fsFuel n {st1 with sdir := !st1.sdir}
      else if st.high.time > st.last.time + timeEps then
        let ht := (st.last.time + st.high.time) * (1/2)
        gen_loop cb f postCb pt half end_ fsFuel n {st1 with high := ⟨ht, cb ht⟩}
      else (gen_widen cb f postCb pt end_ st1).elim some
        (gen_loop cb f postCb pt half end_ fsFuel n)
    else (gen_widen cb f postCb pt end_ st).elim some
      (gen_loop cb f postCb pt half end_ fsFuel n)

/-- C `itersolve_gen_steps_range`: generate step times for the portion
`[move_start, move_end]` (absolute) of a move starting at `pt`. -/
def itersolve_gen_steps_range (cb : ℚ → ℚ) (f : ℕ → Status)
    (postCb : Option (stepper_kinematics → stepper_kinematics))
    (rangeFuel fsFuel : ℕ) (sk : stepper_kinematics) (ss : SinkState)
    (pt move_start move_end : ℚ) : Option (Status × GenState) :=
  let half := (1/2) * sk.step_dist
  let start := move_start - pt
  let end_ := move_end - pt
  let last : timepos := ⟨start, sk.commanded_pos⟩
  gen_loop cb f postCb pt half end_ fsFuel rangeFuel
    ⟨sk, ss, last, last, last, SEEK_TIME_RESET, sk.next_step_dir, false, []⟩

/-- C `check_active`: a move is likely to move this stepper when some
axis flagged in `active_flags` has a nonzero `axes_r` component. -/
def check_active (sk : stepper_kinematics) (m : move) : Bool :=
  (sk.active_x && decide (m.axes_r.x ≠ 0))
    || (sk.active_y && decide (m.axes_r.y ≠ 0))
    || (sk.active_z && decide (m.axes_r.z ≠ 0))

/-- Modelled from the spec: the trapq sentinel at the tail of the move
queue, with a print time far past any realistic flush time, so the
forward walks stop there (trapq.c is not part of the given sources). -/
def NEVER_TIME : ℚ := 99999999999999999/10

/-- Modelled from the spec: the tail sentinel move. -/
def tail_sentinel : move := {print_time := NEVER_TIME}

/-- Modelled from the spec: the head sentinel move (all fields zero), on
which the backward walk of the flush driver stops. -/
def head_sentinel : move := {}

/-- The move queue seen through the sentinels: index 0 is the head
sentinel, indices 1..n the queued moves, and anything past that the tail
sentinel. -/
def getMove (ms : List move) (i : ℕ) : move :=
  (head_sentinel :: ms ++ [tail_sentinel]).getD i tail_sentinel

/-- Ghost record of one `itersolve_gen_steps_range` call made by the
flush driver: the `commanded_pos` at entry, the move and clipped range,
and the returned status. -/
structure RangeCall where
  entry_commanded : ℚ
  mv : move
  gen_start : ℚ
  gen_end : ℚ
  ret : Status
deriving DecidableEq

/-- Phases of the flush-driver control flow: the initial skip over
already-flushed moves, the backward walk for pre-active padding, and the
main loop body. -/
inductive DPhase
  | skip
  | back
  | main
deriving DecidableEq

/-- Locals of `itersolve_generate_steps`: current queue index, the local
`last_flush_time` and `force_steps_time` variables, and the mutated
stepper and sink. -/
structure DState where
  i : ℕ
  lft : ℚ
  fst : ℚ
  sk : stepper_kinematics
  ss : SinkState

/-- The loops of `itersolve_generate_steps`, fuel-indexed.  `post` is the
clamped local copy of `gen_steps_post_active`.  Returns the status, the
final stepper and sink, and the ghost list of range-solve calls made. -/
def driver_loop (cbOf : move → ℚ → ℚ) (f : ℕ → Status)
    (postCb : Option (stepper_kinematics → stepper_kinematics))
    (ms : List move) (flush_time post : ℚ) (rangeFuel fsFuel : ℕ) :
    ℕ → DPhase → DState →
    Option (Status × stepper_kinematics × SinkState × List RangeCall)
  | 0, _, _ => none
  | n+1, DPhase.skip, d =>
    let m := getMove ms d.i
    if d.lft ≥ m.print_time + m.move_t then
      driver_loop cbOf f postCb ms flush_time post rangeFuel fsFuel n
        DPhase.skip {d with i := d.i + 1}
    else
      driver_loop cbOf f postCb ms flush_time post rangeFuel fsFuel n
        DPhase.main d
  | n+1, DPhase.back, d =>
    let m := getMove ms d.i
    if m.print_time > d.lft then
      driver_loop cbOf f postCb ms flush_time post rangeFuel fsFuel n
        DPhase.back {d with i := d.i - 1}
    else
      driver_loop cbOf f postCb ms flush_time post rangeFuel fsFuel n
        DPhase.main d
  | n+1, DPhase.main, d =>
    if d.lft ≥ flush_time then some (0, d.sk, d.ss, [])
    else
      let m := getMove ms d.i
      let end0 := m.print_time + m.move_t
      let start := if m.print_time < d.lft then d.lft else m.print_time
      let end_ := if end0 > flush_time then flush_time else end0
      if check_active d.sk m then
        if d.sk.gen_steps_pre_active ≠ 0 ∧ start > d.lft + timeEps then
          let lft' := if d.lft < start - d.sk.gen_steps_pre_active then
              start - d.sk.gen_steps_pre_active else d.lft
          driver_loop cbOf f postCb ms flush_time post rangeFuel fsFuel n
            DPhase.back {d with lft := lft', fst := start}
        else
          (itersolve_gen_steps_range (cbOf m) f postCb rangeFuel fsFuel
              d.sk d.ss m.print_time start end_).bind (fun rg =>
            let call : RangeCall := ⟨d.sk.commanded_pos, m, start, end_, rg.1⟩
            if rg.1 ≠ 0 then some (rg.1, rg.2.sk, rg.2.ss, [call])
            else
              let sk' := {rg.2.sk with last_move_time := end_}
              if flush_time + sk'.gen_steps_pre_active ≤ end0 then
                some (0, sk', rg.2.ss, [call])
              else
                (driver_loop cbOf f postCb ms flush_time post rangeFuel
                    fsFuel n DPhase.main
                    {d with i := d.i + 1, lft := end_, fst := end_ + post,
                            sk := sk', ss := rg.2.ss}).bind (fun out =>
                  some (out.1, out.2.1, out.2.2.1, call :: out.2.2.2)))
      else if start < d.fst then
        let end2 := if end_ > d.fst then d.fst else end_
        (itersolve_gen_steps_range (cbOf m) f postCb rangeFuel fsFuel
            d.sk d.ss m.print_time start end2).bind (fun rg =>
          let call : RangeCall := ⟨d.sk.commanded_pos, m, start, end2, rg.1⟩
          if rg.1 ≠ 0 then some (rg.1, rg.2.sk, rg.2.ss, [call])
          else
            if flush_time + rg.2.sk.gen_steps_pre_active ≤ end0 then
              some (0, rg.2.sk, rg.2.ss, [call])
            else
              (driver_loop cbOf f postCb ms flush_time post rangeFuel
                  fsFuel n DPhase.main
                  {d with i := d.i + 1, lft := end2, sk := rg.2.sk,
                          ss := rg.2.ss}).bind (fun out =>
                some (out.1, out.2.1, out.2.2.1, call :: out.2.2.2)))
      else
        if flush_time + d.sk.gen_steps_pre_active ≤ end0 then
          some (0, d.sk, d.ss, [])
        else
          driver_loop cbOf f postCb ms flush_time post rangeFuel fsFuel n
            DPhase.main {d with i := d.i + 1}

/-- C `itersolve_generate_steps`: flush this stepper up to `flush_time`.
`tq = none` models a detached queue (`!sk->tq`). -/
def itersolve_generate_steps (cbOf : move → ℚ → ℚ) (f : ℕ → Status)
    (postCb : Option (stepper_kinematics → stepper_kinematics))
    (rangeFuel fsFuel fuel : ℕ) (sk : stepper_kinematics)
    (tq : Option (List move)) (ss : SinkState) (flush_time : ℚ) :
    Option (Status × stepper_kinematics × SinkState × List RangeCall) :=
  let last_flush_time := sk.last_flush_time
  let sk := {sk with last_flush_time := flush_time}
  match tq with
  | none => some (0, sk, ss, [])
  | some ms =>
    let post := if sk.gen_steps_post_active < SDS_CHECK_TIME then
        SDS_CHECK_TIME else sk.gen_steps_post_active
    driver_loop cbOf f postCb ms flush_time post rangeFuel fsFuel fuel
      DPhase.skip ⟨1, last_flush_time, sk.last_move_time + post, sk, ss⟩

/-- The scan of `itersolve_check_active` after the initial skip: return
the print time of the first likely-active move, stopping with 0 at the
first move whose end reaches `flush_time`.  The empty-list base case is
the tail sentinel, which is never active and always ends past
`flush_time`. -/
def ica_scan (sk : stepper_kinematics) (flush_time : ℚ) : List move → ℚ
  | [] => 0
  | m :: rest =>
    if check_active sk m then m.print_time
    else if flush_time ≤ m.print_time + m.move_t then 0
    else ica_scan sk flush_time rest

/-- C `itersolve_check_active`: print time of the first move likely to
move this stepper, walking from the first move not fully flushed yet. -/
def itersolve_check_active (sk : stepper_kinematics)
    (tq : Option (List move)) (flush_time : ℚ) : ℚ :=
  match tq with
  | none => 0
  | some ms =>
    ica_scan sk flush_time
      (ms.dropWhile fun m => decide (m.print_time + m.move_t ≤ sk.last_flush_time))

/-- C `itersolve_is_active_axis`. -/
def itersolve_is_active_axis (sk : stepper_kinematics) (axis : Char) : Bool :=
  if axis = 'x' then sk.active_x
  else if axis = 'y' then sk.active_y
  else if axis = 'z' then sk.active_z
  else false

/-- C `itersolve_set_stepcompress` (the compressor handle itself is
implicit in the environment). -/
def itersolve_set_stepcompress (sk : stepper_kinematics) (step_dist : ℚ) :
    stepper_kinematics :=
  {sk with step_dist := step_dist}

/-- The ephemeral stationary move built by
`itersolve_calc_position_from_coord`: everything zeroed except the start
position and a 1000 s duration. -/
def ephemeral_move (x y z : ℚ) : move :=
  {print_time := 0, move_t := 1000, start_v := 0, half_accel := 0,
   start_pos := ⟨x, y, z⟩, axes_r := ⟨0, 0, 0⟩}

/-- C `itersolve_calc_position_from_coord`: evaluate the projection at
time 500 of the ephemeral stationary move at `(x, y, z)`. -/
def itersolve_calc_position_from_coord (cbOf : move → ℚ → ℚ)
    (x y z : ℚ) : ℚ :=
  cbOf (ephemeral_move x y z) 500

/-- C `itersolve_set_position`. -/
def itersolve_set_position (cbOf : move → ℚ → ℚ)
    (sk : stepper_kinematics) (x y z : ℚ) : stepper_kinematics :=
  {sk with commanded_pos := itersolve_calc_position_from_coord cbOf x y z}

/-- C `itersolve_get_commanded_pos`. -/
def itersolve_get_commanded_pos (sk : stepper_kinematics) : ℚ :=
  sk.commanded_pos

/-! ## The easy interface and filter claims -/

/-- The stepper used by the concrete failing-flush run: a pending
filter step from an earlier flush, a huge step distance so that the
flat trajectory generates no new steps, and an active x axis. -/
def c5sk : stepper_kinematics :=
  { step_dist := 1000, commanded_pos := 0, next_step_time := 0,
    next_move_print_time := 5, next_step_dir := true,
    last_flush_time := 10, last_move_time := 0, gen_steps_pre_active := 0,
    gen_steps_post_active := 0, active_x := true }

/-- The single active move of the concrete failing-flush run. -/
def c5mv : move :=
  { print_time := 10, move_t := 2/10000, axes_r := ⟨1, 0, 0⟩ }

/-- Stepper for the partial-progress-commit run: `step_dist = 2`, empty
filter, positive direction, x-axis active. -/
def c6sk : stepper_kinematics :=
  { step_dist := 2, commanded_pos := 0, next_step_time := 0,
    next_move_print_time := 0, next_step_dir := true,
    last_flush_time := 10, last_move_time := 0, gen_steps_pre_active := 0,
    gen_steps_post_active := 0, active_x := true }

/-- The single active move of the partial-progress-commit run. -/
def c6mv : move :=
  { print_time := 10, move_t := 1/10000, axes_r := ⟨1, 0, 0⟩ }

/-- Projection for the partial-progress-commit run: a ramp crossing one
full step (position 2) with half a step of progress left at the range
end — exactly the `0 < dist < half_step` situation. -/
def c6cb : move → ℚ → ℚ := fun _ t => 25000 * t

/-- The claim's notion of a move being active for the stepper *within
the window* `[lft, ft]`: the activity predicate holds and the move's
time range meets the window.  Stated from the claim's words, to compare
with what `itersolve_check_active` actually tests. -/
def activeInWindow (sk : stepper_kinematics) (lft ft : ℚ) (m : move) : Bool :=
  check_active sk m && decide (m.print_time ≤ ft)
    && decide (lft ≤ m.print_time + m.move_t)

/-- Stepper of the `itersolve_check_active` window counterexample:
active on x, flushed up to time 0. -/
def c7sk : stepper_kinematics := {active_x := true, last_flush_time := 0}

/-- First queued move of the window counterexample: inactive (all
`axes_r` components zero), covering `[0, 1/2]`. -/
def c7m1 : move := {print_time := 0, move_t := 1/2}

/-- Second queued move of the window counterexample: active on x but
covering `[2, 3]`, entirely after the flush time 1. -/
def c7m2 : move := {print_time := 2, move_t := 1, axes_r := ⟨1, 0, 0⟩}

/-- The per-step position chain of the claim: each appended step moves
the tracked position from `p` by exactly `d`, in the direction recorded
for the step. -/
def stepChain (d : ℚ) : ℚ → List StepAppend → Bool
  | _, [] => true
  | p, e :: rest =>
    decide (e.newpos = p + (if e.sdir then d else -d)) && stepChain d e.newpos rest

/-- The ending position of a step chain. -/
def chainEnd : ℚ → List StepAppend → ℚ
  | p, [] => p
  | _, e :: rest => chainEnd e.newpos rest

/-- Monotone, bounded step times: each appended step time is at least
the running lower bound `t` and at most `hi`, and becomes the next
lower bound. -/
def timesMono (hi : ℚ) : ℚ → List StepAppend → Bool
  | _, [] => true
  | t, e :: rest =>
    decide (t ≤ e.stime) && decide (e.stime ≤ hi) && timesMono hi e.stime rest

/-- All appends of a log carry the move's print time as their `mtime`. -/
def mtimesAre (pt : ℚ) (l : List StepAppend) : Bool :=
  l.all fun e => decide (e.mtime = pt)

/-- Stepper of the trivial (empty-range) witness solve. -/
def c1wsk : stepper_kinematics := {step_dist := 1}

/-- Magnitude sequence of the diverging projection: the low-endpoint
values `a_k` of the designed run (the high-endpoint values are
`c4c k = a_k (k² + 5k + 5)`). -/
def c4a : ℕ → ℚ
  | 0 => 1
  | k+1 => c4a k * ((((k:ℚ))^2 + 5*k + 5) * (((k:ℚ)+1) * ((k:ℚ)+4)))

/-- High-endpoint magnitudes of the diverging run. -/
def c4c (j : ℕ) : ℚ := c4a j * ((j:ℚ)^2 + 5*j + 5)

/-- A total projection on which the false-position loop never takes its
convergence break: it returns `a_j` at the designed low points
`-1/(j+1)` and `-c_j` at the designed high points `1 + 1/(j+1)`. -/
def c4cb (t : ℚ) : ℚ :=
  if t < 0 then c4a (⌊-1/t⌋.toNat - 1)
  else if 1 < t then -(c4c (⌊1/(t-1)⌋.toNat - 1))
  else 0

/-- Low-endpoint times of the diverging run. -/
def c4L (k : ℕ) : ℚ := -(1/((k:ℚ)+1))

/-- High-endpoint times of the diverging run. -/
def c4H (k : ℕ) : ℚ := 1 + 1/((k:ℚ)+1)

/-- Loop state after a full round `k` of the diverging run. -/
def c4st (k : ℕ) : fsstate :=
  ⟨⟨c4L k, c4a k⟩, ⟨c4H k, -(c4c k)⟩, ⟨c4H k, -(c4c k)⟩⟩

/-- Loop state after the low-replacing half of round `k+1`. -/
def c4stA (k : ℕ) : fsstate :=
  ⟨⟨c4L (k+1), c4a (k+1)⟩, ⟨c4H k, -(c4c k)⟩, ⟨c4L (k+1), c4a (k+1)⟩⟩

/-- Inversion for `Sum.elim f g w = some o`: exactly one branch fired. -/
theorem sum_elim_some_inv {A B C : Type} (f : A → Option C) (g : B → Option C)
    (w : A ⊕ B) (o : C) (h : Sum.elim f g w = some o) :
    (∃ a, w = Sum.inl a ∧ f a = some o)
    ∨ (∃ b, w = Sum.inr b ∧ g b = some o) := by
  cases w with
  | inl a => exact Or.inl ⟨a, rfl, h⟩
  | inr b => exact Or.inr ⟨b, rfl, h⟩

/-- C8: `set_position` sets `commanded_pos` to exactly
`calc_position_from_coord(x, y, z)`, which is the projection callback at
the midpoint (t = 500) of an ephemeral move with zero velocity
coefficients and start position `(x, y, z)`; `get_commanded_pos` then
returns that value. -/
theorem c8_set_position (cbOf : move → ℚ → ℚ) (sk : stepper_kinematics)
    (x y z : ℚ) :
    (itersolve_set_position cbOf sk x y z).commanded_pos
        = itersolve_calc_position_from_coord cbOf x y z
    ∧ itersolve_calc_position_from_coord cbOf x y z
        = cbOf (ephemeral_move x y z) 500
    ∧ (ephemeral_move x y z).start_v = 0
    ∧ (ephemeral_move x y z).half_accel = 0
    ∧ (ephemeral_move x y z).axes_r = ⟨0, 0, 0⟩
    ∧ (ephemeral_move x y z).start_pos = ⟨x, y, z⟩
    ∧ (500 : ℚ) = (ephemeral_move x y z).move_t / 2
    ∧ itersolve_get_commanded_pos (itersolve_set_position cbOf sk x y z)
        = itersolve_calc_position_from_coord cbOf x y z := by
  refine ⟨rfl, rfl, rfl, rfl, rfl, rfl, ?_, rfl⟩
  norm_num [ephemeral_move]

/-- C9: a candidate step appended with move print time exactly 0 leaves
the filter in its Empty encoding (`next_move_print_time = 0`), and from
that state no append commits anything to the sink and no flush forwards
anything: the step is invisible. -/
theorem c9_zero_mtime_is_empty (f : ℕ → Status) (sk : stepper_kinematics)
    (ss : SinkState) (dir dir' : Bool) (st mt' st' fmt fst : ℚ) :
    (sds_append f sk ss dir 0 st).2.1.next_move_print_time = 0
    ∧ (sk.next_move_print_time = 0 →
        sds_append f sk ss dir' mt' st'
          = (0, {sk with next_move_print_time := mt', next_step_time := st',
                         next_step_dir := dir'}, ss)
        ∧ sds_flush f sk ss fmt fst = (0, sk, ss)) := by
  constructor
  · simp only [sds_append, sds_commit, stepcompress_append]
    split_ifs <;> rfl
  · intro h
    constructor
    · unfold sds_append
      rw [if_neg (by simp [h]), if_neg (by simp [h])]
    · unfold sds_flush
      rw [if_neg (by simp [h])]

/-- Closed witness for `c9_zero_mtime_is_empty`. -/
theorem c9_zero_mtime_is_empty_witness :
    (sds_append (fun _ => 0) {} {} true 0 7).2.1.next_move_print_time = 0
    ∧ sds_append (fun _ => 0) {} {} false 3 4
        = (0, {next_move_print_time := 3, next_step_time := 4,
               next_step_dir := false}, {})
    ∧ sds_flush (fun _ => 0) {} {} 9 9 = (0, {}, {}) := by
  have h := c9_zero_mtime_is_empty (fun _ => 0) {} {} true false 7 3 4 9 9
  exact ⟨h.1, (h.2 rfl).1, (h.2 rfl).2⟩

/-- `sds_append` on an empty filter just records the candidate. -/
theorem sds_append_of_empty (f : ℕ → Status) (sk : stepper_kinematics)
    (ss : SinkState) (dir : Bool) (mt st : ℚ)
    (h : sk.next_move_print_time = 0) :
    sds_append f sk ss dir mt st
      = (0, {sk with next_move_print_time := mt, next_step_time := st,
                     next_step_dir := dir}, ss) := by
  unfold sds_append
  rw [if_neg (by simp [h]), if_neg (by simp [h])]

/-- `sds_append` in the rollback case: pending step and candidate cancel. -/
theorem sds_append_rollback (f : ℕ → Status) (sk : stepper_kinematics)
    (ss : SinkState) (dir : Bool) (mt st : ℚ)
    (h : sk.next_move_print_time ≠ 0) (hd : dir ≠ sk.next_step_dir)
    (hc : (mt - sk.next_move_print_time) + (st - sk.next_step_time)
            < SDS_FILTER_TIME) :
    sds_append f sk ss dir mt st
      = (0, {sk with next_move_print_time := 0, next_step_dir := dir}, ss) := by
  unfold sds_append
  rw [if_pos ⟨h, hd, hc⟩]

/-- C2: starting from an empty filter, a candidate step with nonzero
move print time followed by an opposite-direction candidate within
`SDS_FILTER_TIME` (combined move+step time) cancels both: nothing is
handed to the sink, the stored direction becomes the new direction, and
the filter returns to Empty. -/
theorem c2_reversal_cancels (f : ℕ → Status) (sk₀ : stepper_kinematics)
    (ss₀ : SinkState) (d1 d2 : Bool) (mt1 st1 mt2 st2 : ℚ)
    (hE : sk₀.next_move_print_time = 0) (h1 : mt1 ≠ 0) (hd : d1 ≠ d2)
    (hc : (mt2 - mt1) + (st2 - st1) < SDS_FILTER_TIME) :
    (sds_append f sk₀ ss₀ d1 mt1 st1).1 = 0
    ∧ (sds_append f sk₀ ss₀ d1 mt1 st1).2.2 = ss₀
    ∧ ((sds_append f
          (sds_append f sk₀ ss₀ d1 mt1 st1).2.1
          (sds_append f sk₀ ss₀ d1 mt1 st1).2.2 d2 mt2 st2).1 = 0
      ∧ (sds_append f (sds_append f sk₀ ss₀ d1 mt1 st1).2.1
          (sds_append f sk₀ ss₀ d1 mt1 st1).2.2 d2 mt2 st2).2.2 = ss₀
      ∧ (sds_append f (sds_append f sk₀ ss₀ d1 mt1 st1).2.1
          (sds_append f sk₀ ss₀ d1 mt1 st1).2.2 d2 mt2 st2).2.1.next_move_print_time = 0
      ∧ (sds_append f (sds_append f sk₀ ss₀ d1 mt1 st1).2.1
          (sds_append f sk₀ ss₀ d1 mt1 st1).2.2 d2 mt2 st2).2.1.next_step_dir = d2) := by
  have e1 := sds_append_of_empty f sk₀ ss₀ d1 mt1 st1 hE
  have e2 : sds_append f
      ({sk₀ with next_move_print_time := mt1, next_step_time := st1, next_step_dir := d1})
      ss₀ d2 mt2 st2
      = (0, ({sk₀ with next_move_print_time := 0, next_step_time := st1, next_step_dir := d2}), ss₀) := by
    rw [sds_append_rollback f _ ss₀ d2 mt2 st2 (by simpa using h1)
      (by simpa using Ne.symm hd) (by simpa using hc)]
  rw [e1]
  dsimp only
  rw [e2]
  exact ⟨rfl, rfl, rfl, rfl, rfl, rfl⟩

/-- Closed witness for `c2_reversal_cancels`. -/
theorem c2_reversal_cancels_witness :
    (sds_append (fun _ => 0) {} {} true 10 0).1 = 0
    ∧ (sds_append (fun _ => 0) {} {} true 10 0).2.2 = ({} : SinkState)
    ∧ ((sds_append (fun _ => 0)
          (sds_append (fun _ => 0) {} {} true 10 0).2.1
          (sds_append (fun _ => 0) {} {} true 10 0).2.2 false 10 (3/10000)).1 = 0
      ∧ (sds_append (fun _ => 0) (sds_append (fun _ => 0) {} {} true 10 0).2.1
          (sds_append (fun _ => 0) {} {} true 10 0).2.2 false 10 (3/10000)).2.2
            = ({} : SinkState)
      ∧ (sds_append (fun _ => 0) (sds_append (fun _ => 0) {} {} true 10 0).2.1
          (sds_append (fun _ => 0) {} {} true 10 0).2.2 false 10
            (3/10000)).2.1.next_move_print_time = 0
      ∧ (sds_append (fun _ => 0) (sds_append (fun _ => 0) {} {} true 10 0).2.1
          (sds_append (fun _ => 0) {} {} true 10 0).2.2 false 10
            (3/10000)).2.1.next_step_dir = false) :=
  c2_reversal_cancels (fun _ => 0) {} {} true false 10 0 10 (3/10000)
    rfl (by norm_num) (by decide) (by norm_num [SDS_FILTER_TIME])

/-- C3: the two early returns of the root finder: a perfect high
endpoint (`p_H - target = 0`) returns `(t_H, target)`; an unbracketed
target (equal signs at both endpoints) returns the degenerate
`(t_L, target)` without iterating (for every fuel). -/
theorem c3_find_step_early_returns (cb : ℚ → ℚ) (fsFuel : ℕ)
    (low high : timepos) (target : ℚ) :
    (high.position = target →
      itersolve_find_step cb fsFuel low high target = ⟨high.time, target⟩)
    ∧ (high.position ≠ target →
        signbit (low.position - target) = signbit (high.position - target) →
        itersolve_find_step cb fsFuel low high target = ⟨low.time, target⟩) := by
  constructor
  · intro h
    simp only [itersolve_find_step]
    rw [if_pos (show high.position - target = 0 by rw [h, sub_self])]
    rw [← h]
  · intro h hsgn
    simp only [itersolve_find_step]
    rw [if_neg (show ¬(high.position - target = 0) by
          simpa [sub_eq_zero] using h),
        if_pos hsgn.symm]

/-- Closed witness for `c3_find_step_early_returns`. -/
theorem c3_find_step_early_returns_witness :
    itersolve_find_step (fun _ => 0) 3 ⟨0, 0⟩ ⟨1, 5⟩ 5 = ⟨1, 5⟩
    ∧ itersolve_find_step (fun _ => 0) 3 ⟨0, 0⟩ ⟨1, 5⟩ 7 = ⟨0, 7⟩ :=
  ⟨(c3_find_step_early_returns (fun _ => 0) 3 ⟨0, 0⟩ ⟨1, 5⟩ 5).1 rfl,
   (c3_find_step_early_returns (fun _ => 0) 3 ⟨0, 0⟩ ⟨1, 5⟩ 7).2
     (by norm_num)
     (by simp only [signbit, decide_eq_decide]; norm_num)⟩

/-! ## Frame lemmas: which stepper fields the solver leaves alone -/
/-- `sds_commit` only clears the pending slot. -/
theorem sds_commit_frame (f : ℕ → Status) (sk : stepper_kinematics)
    (ss : SinkState) :
    (sds_commit f sk ss).2.1.last_flush_time = sk.last_flush_time
    ∧ (sds_commit f sk ss).2.1.commanded_pos = sk.commanded_pos :=
  ⟨rfl, rfl⟩

/-- `sds_append` never touches `last_flush_time` or `commanded_pos`. -/
theorem sds_append_frame (f : ℕ → Status) (sk : stepper_kinematics)
    (ss : SinkState) (dir : Bool) (mt st : ℚ) :
    (sds_append f sk ss dir mt st).2.1.last_flush_time = sk.last_flush_time
    ∧ (sds_append f sk ss dir mt st).2.1.commanded_pos = sk.commanded_pos := by
  unfold sds_append sds_commit stepcompress_append
  dsimp only
  split_ifs <;> exact ⟨rfl, rfl⟩

/-- `sds_flush` never touches `last_flush_time` or `commanded_pos`. -/
theorem sds_flush_frame (f : ℕ → Status) (sk : stepper_kinematics)
    (ss : SinkState) (mt st : ℚ) :
    (sds_flush f sk ss mt st).2.1.last_flush_time = sk.last_flush_time
    ∧ (sds_flush f sk ss mt st).2.1.commanded_pos = sk.commanded_pos := by
  unfold sds_flush sds_commit stepcompress_append
  dsimp only
  split_ifs <;> exact ⟨rfl, rfl⟩

@[simp] theorem sds_commit_lft (f : ℕ → Status) (sk : stepper_kinematics)
    (ss : SinkState) :
    (sds_commit f sk ss).2.1.last_flush_time = sk.last_flush_time :=
  (sds_commit_frame f sk ss).1

@[simp] theorem sds_commit_cpos (f : ℕ → Status) (sk : stepper_kinematics)
    (ss : SinkState) :
    (sds_commit f sk ss).2.1.commanded_pos = sk.commanded_pos :=
  (sds_commit_frame f sk ss).2

@[simp] theorem sds_append_lft (f : ℕ → Status) (sk : stepper_kinematics)
    (ss : SinkState) (dir : Bool) (mt st : ℚ) :
    (sds_append f sk ss dir mt st).2.1.last_flush_time = sk.last_flush_time :=
  (sds_append_frame f sk ss dir mt st).1

@[simp] theorem sds_append_cpos (f : ℕ → Status) (sk : stepper_kinematics)
    (ss : SinkState) (dir : Bool) (mt st : ℚ) :
    (sds_append f sk ss dir mt st).2.1.commanded_pos = sk.commanded_pos :=
  (sds_append_frame f sk ss dir mt st).2

@[simp] theorem sds_flush_lft (f : ℕ → Status) (sk : stepper_kinematics)
    (ss : SinkState) (mt st : ℚ) :
    (sds_flush f sk ss mt st).2.1.last_flush_time = sk.last_flush_time :=
  (sds_flush_frame f sk ss mt st).1

@[simp] theorem sds_flush_cpos (f : ℕ → Status) (sk : stepper_kinematics)
    (ss : SinkState) (mt st : ℚ) :
    (sds_flush f sk ss mt st).2.1.commanded_pos = sk.commanded_pos :=
  (sds_flush_frame f sk ss mt st).2

/-- A widening step keeps the stepper, `last` and the log unchanged. -/
theorem gen_widen_inr_frame {cb : ℚ → ℚ} {f : ℕ → Status}
    {postCb : Option (stepper_kinematics → stepper_kinematics)}
    {pt end_ : ℚ} {X Y : GenState}
    (hw : gen_widen cb f postCb pt end_ X = Sum.inr Y) :
    Y.sk = X.sk ∧ Y.last = X.last ∧ Y.log = X.log := by
  unfold gen_widen at hw
  dsimp only at hw
  split_ifs at hw <;>
    (injection hw with hw'; subst hw'; exact ⟨rfl, rfl, rfl⟩)

/-- A loop exit through `gen_widen` never touches `last_flush_time`,
keeps `commanded_pos` on error, publishes `last.position` on success
(without hook), and keeps the log. -/
theorem gen_widen_inl_frame {cb : ℚ → ℚ} {f : ℕ → Status}
    {postCb : Option (stepper_kinematics → stepper_kinematics)}
    {pt end_ : ℚ} {X : GenState} {out : Status × GenState}
    (hpost : ∀ s, (applyPost postCb s).last_flush_time = s.last_flush_time)
    (hw : gen_widen cb f postCb pt end_ X = Sum.inl out) :
    out.2.sk.last_flush_time = X.sk.last_flush_time
    ∧ (out.1 ≠ 0 → out.2.sk.commanded_pos = X.sk.commanded_pos)
    ∧ (out.1 = 0 → postCb = none →
        out.2.sk.commanded_pos = out.2.last.position)
    ∧ out.2.log = X.log := by
  unfold gen_widen at hw
  dsimp only at hw
  split_ifs at hw with h1 h2
  · injection hw with hw'
    subst hw'
    exact ⟨by simp, fun _ => by simp, fun hz _ => absurd hz h2, rfl⟩
  · injection hw with hw'
    subst hw'
    refine ⟨by rw [hpost]; simp, fun hnz => absurd rfl hnz,
      fun _ hnone => ?_, rfl⟩
    subst hnone
    simp [applyPost]

/-- Frame facts about the range-solver loop: `last_flush_time` is never
touched (given a hook that preserves it), an error return leaves
`commanded_pos` at its entry value, and a successful return without hook
publishes the final `last.position` into `commanded_pos`. -/
theorem gen_loop_frame (cb : ℚ → ℚ) (f : ℕ → Status)
    (postCb : Option (stepper_kinematics → stepper_kinematics))
    (pt half end_ : ℚ) (fsFuel : ℕ)
    (hpost : ∀ s, (applyPost postCb s).last_flush_time = s.last_flush_time) :
    ∀ n (st : GenState) (r : Status) (st' : GenState),
      gen_loop cb f postCb pt half end_ fsFuel n st = some (r, st') →
      st'.sk.last_flush_time = st.sk.last_flush_time
      ∧ (r ≠ 0 → st'.sk.commanded_pos = st.sk.commanded_pos)
      ∧ (r = 0 → postCb = none →
          st'.sk.commanded_pos = st'.last.position) := by
  intro n
  induction n with
  | zero =>
    intro st r st' h
    exact absurd h (by simp [gen_loop])
  | succ n ih =>
    intro st r st' h
    rw [gen_loop] at h
    dsimp only at h
    split_ifs at h
    all_goals
      first
      | -- tail through gen_widen
        (obtain ⟨out, hw, h2⟩ | ⟨st3, hw, h2⟩ := sum_elim_some_inv _ _ _ _ h
         · injection h2 with h3
           subst h3
           exact ⟨by simpa using (gen_widen_inl_frame hpost hw).1,
             fun hnz => by simpa using (gen_widen_inl_frame hpost hw).2.1 hnz,
             (gen_widen_inl_frame hpost hw).2.2.1⟩
         · obtain ⟨e1, e2, e3⟩ := ih _ _ _ h2
           rw [(gen_widen_inr_frame hw).1] at e1 e2
           exact ⟨by simpa using e1, fun hnz => by simpa using e2 hnz, e3⟩)
      | -- direct error return from sds_append
        (injection h with h'
         injection h' with hr hst
         subst hr
         subst hst
         exact ⟨by simp, fun _ => by simp, fun hz _ => absurd hz (by assumption)⟩)
      | -- direct recursion
        (obtain ⟨e1, e2, e3⟩ := ih _ _ _ h
         exact ⟨by simpa using e1, fun hnz => by simpa using e2 hnz, e3⟩)

/-- Frame facts lifted to `itersolve_gen_steps_range`. -/
theorem gen_steps_range_frame {cb : ℚ → ℚ} {f : ℕ → Status}
    {postCb : Option (stepper_kinematics → stepper_kinematics)}
    {rangeFuel fsFuel : ℕ} {sk : stepper_kinematics} {ss : SinkState}
    {pt ms me : ℚ} {r : Status} {gst : GenState}
    (hpost : ∀ s, (applyPost postCb s).last_flush_time = s.last_flush_time)
    (h : itersolve_gen_steps_range cb f postCb rangeFuel fsFuel sk ss pt ms me
          = some (r, gst)) :
    gst.sk.last_flush_time = sk.last_flush_time
    ∧ (r ≠ 0 → gst.sk.commanded_pos = sk.commanded_pos)
    ∧ (r = 0 → postCb = none → gst.sk.commanded_pos = gst.last.position) := by
  unfold itersolve_gen_steps_range at h
  dsimp only at h
  simpa using gen_loop_frame cb f postCb pt _ _ fsFuel hpost rangeFuel _ r gst h

set_option maxHeartbeats 2000000 in
/-- The flush driver's loops never touch `last_flush_time` (given a hook
that preserves it). -/
theorem driver_loop_lft (cbOf : move → ℚ → ℚ) (f : ℕ → Status)
    (postCb : Option (stepper_kinematics → stepper_kinematics))
    (ms : List move) (flush_time post : ℚ) (rangeFuel fsFuel : ℕ)
    (hpost : ∀ s, (applyPost postCb s).last_flush_time = s.last_flush_time) :
    ∀ n ph (d : DState) (r : Status) sk' ss' calls,
      driver_loop cbOf f postCb ms flush_time post rangeFuel fsFuel n ph d
        = some (r, sk', ss', calls) →
      sk'.last_flush_time = d.sk.last_flush_time := by
  intro n
  induction n with
  | zero =>
    intro ph d r sk' ss' calls h
    exact absurd h (by cases ph <;> simp [driver_loop])
  | succ n ih =>
    intro ph d r sk' ss' calls h
    cases ph
    case skip =>
      rw [driver_loop] at h
      split_ifs at h <;> (have hrec := ih _ _ _ _ _ _ h; exact hrec)
    case back =>
      rw [driver_loop] at h
      split_ifs at h <;> (have hrec := ih _ _ _ _ _ _ h; exact hrec)
    case main =>
      rw [driver_loop] at h
      try dsimp only at h
      set m := getMove ms d.i with hm
      set v1 := if m.print_time < d.lft then d.lft else m.print_time with hv1
      set e0 := m.print_time + m.move_t with he0
      set v2 := if e0 > flush_time then flush_time else e0 with hv2
      set v3 := if v2 > d.fst then d.fst else v2 with hv3
      set v4 := if d.lft < v1 - d.sk.gen_steps_pre_active then v1 - d.sk.gen_steps_pre_active else d.lft with hv4
      split_ifs at h
      all_goals try simp only [Option.bind_eq_some] at h
      all_goals try obtain ⟨rg, hR, h⟩ := h
      all_goals try split_ifs at h
      all_goals try simp only [Option.bind_eq_some] at h
      all_goals try obtain ⟨out2, hR2, h⟩ := h
      all_goals
        first
        | rfl
        | (have hrec := ih _ _ _ _ _ _ h; exact hrec)
        | exact (gen_steps_range_frame hpost hR).1
        | (simpa using (gen_steps_range_frame hpost hR).1)
        | (have hrec := ih _ _ _ _ _ _ hR2
           simp only at hrec
           exact hrec.trans (by simpa using (gen_steps_range_frame hpost hR).1))
        | (simp only [Option.some.injEq, Prod.mk.injEq] at h
           obtain ⟨h1, h2, h3, h4⟩ := h
           subst h2
           first
           | rfl
           | exact (gen_steps_range_frame hpost hR).1
           | (simpa using (gen_steps_range_frame hpost hR).1)
           | (have hrec := ih _ _ _ _ _ _ hR2
              simp only at hrec
              exact hrec.trans (by simpa using (gen_steps_range_frame hpost hR).1)))

set_option maxHeartbeats 2000000 in
/-- On a nonzero status, the flush driver's call log ends with the
failing range call: its status is the returned status and the final
`commanded_pos` is the `commanded_pos` at entry to that call. -/
theorem driver_loop_err (cbOf : move → ℚ → ℚ) (f : ℕ → Status)
    (postCb : Option (stepper_kinematics → stepper_kinematics))
    (ms : List move) (flush_time post : ℚ) (rangeFuel fsFuel : ℕ)
    (hpost : ∀ s, (applyPost postCb s).last_flush_time = s.last_flush_time) :
    ∀ n ph (d : DState) (r : Status) sk' ss' calls,
      driver_loop cbOf f postCb ms flush_time post rangeFuel fsFuel n ph d
        = some (r, sk', ss', calls) → r ≠ 0 →
      ∃ c pre, calls = pre ++ [c] ∧ c.ret = r
        ∧ sk'.commanded_pos = c.entry_commanded := by
  intro n
  induction n with
  | zero =>
    intro ph d r sk' ss' calls h
    exact absurd h (by cases ph <;> simp [driver_loop])
  | succ n ih =>
    intro ph d r sk' ss' calls h hr
    cases ph
    case skip =>
      rw [driver_loop] at h
      split_ifs at h <;> exact ih _ _ _ _ _ _ h hr
    case back =>
      rw [driver_loop] at h
      split_ifs at h <;> exact ih _ _ _ _ _ _ h hr
    case main =>
      rw [driver_loop] at h
      try dsimp only at h
      set m := getMove ms d.i with hm
      set v1 := if m.print_time < d.lft then d.lft else m.print_time with hv1
      set e0 := m.print_time + m.move_t with he0
      set v2 := if e0 > flush_time then flush_time else e0 with hv2
      set v3 := if v2 > d.fst then d.fst else v2 with hv3
      set v4 := if d.lft < v1 - d.sk.gen_steps_pre_active then v1 - d.sk.gen_steps_pre_active else d.lft with hv4
      split_ifs at h
      all_goals try simp only [Option.bind_eq_some] at h
      all_goals try obtain ⟨rg, hR, h⟩ := h
      all_goals try split_ifs at h
      all_goals try simp only [Option.bind_eq_some] at h
      all_goals try obtain ⟨out2, hR2, h⟩ := h
      all_goals
        first
        | exact absurd rfl hr
        | exact ih _ _ _ _ _ _ h hr
        | exact ⟨_, [], rfl, rfl, (gen_steps_range_frame hpost hR).2.1 hr⟩
        | (obtain ⟨c, pre, hpre, hret, hcmd⟩ := ih _ _ _ _ _ _ hR2 hr
           exact ⟨c, ⟨d.sk.commanded_pos, m, v1, v2, rg.1⟩ :: pre,
             by rw [hpre]; rfl, hret, hcmd⟩)
        | (obtain ⟨c, pre, hpre, hret, hcmd⟩ := ih _ _ _ _ _ _ hR2 hr
           exact ⟨c, ⟨d.sk.commanded_pos, m, v1, v3, rg.1⟩ :: pre,
             by rw [hpre]; rfl, hret, hcmd⟩)
        | (simp only [Option.some.injEq, Prod.mk.injEq] at h
           obtain ⟨h1, h2, h3, h4⟩ := h
           subst h1 h2 h3 h4
           first
           | exact absurd rfl hr
           | exact ⟨_, [], rfl, rfl, (gen_steps_range_frame hpost hR).2.1 hr⟩
           | (obtain ⟨c, pre, hpre, hret, hcmd⟩ := ih _ _ _ _ _ _ hR2 hr
              exact ⟨c, ⟨d.sk.commanded_pos, m, v1, v2, rg.1⟩ :: pre,
                by rw [hpre]; rfl, hret, hcmd⟩)
           | (obtain ⟨c, pre, hpre, hret, hcmd⟩ := ih _ _ _ _ _ _ hR2 hr
              exact ⟨c, ⟨d.sk.commanded_pos, m, v1, v3, rg.1⟩ :: pre,
                by rw [hpre]; rfl, hret, hcmd⟩))

/-- C10: `itersolve_generate_steps` records `flush_time` into
`last_flush_time` at entry, before any work or error exit, so the field
equals the argument after every completed call — with or without a
queue, for zero and nonzero returns alike (assuming the external
post-step hook leaves the field alone). -/
theorem c10_last_flush_time (cbOf : move → ℚ → ℚ) (f : ℕ → Status)
    (postCb : Option (stepper_kinematics → stepper_kinematics))
    (rangeFuel fsFuel fuel : ℕ) (sk : stepper_kinematics)
    (tq : Option (List move)) (ss : SinkState) (flush_time : ℚ)
    (r : Status) (sk' : stepper_kinematics) (ss' : SinkState)
    (calls : List RangeCall)
    (hpost : ∀ s, (applyPost postCb s).last_flush_time = s.last_flush_time)
    (h : itersolve_generate_steps cbOf f postCb rangeFuel fsFuel fuel sk tq
          ss flush_time = some (r, sk', ss', calls)) :
    sk'.last_flush_time = flush_time := by
  unfold itersolve_generate_steps at h
  cases tq with
  | none =>
    dsimp only at h
    simp only [Option.some.injEq, Prod.mk.injEq] at h
    obtain ⟨h1, h2, h3, h4⟩ := h
    rw [← h2]
  | some ms =>
    dsimp only at h
    have hd := driver_loop_lft cbOf f postCb ms flush_time _ rangeFuel fsFuel
      hpost _ _ _ r sk' ss' calls h
    simpa using hd

/-- Closed witness for `c10_last_flush_time` (no-queue call). -/
theorem c10_last_flush_time_witness :
    ({ last_flush_time := 5 } : stepper_kinematics).last_flush_time = 5 :=
  c10_last_flush_time (fun _ _ => 0) (fun _ => 0) none 0 0 0 {} none {} 5 0
    { last_flush_time := 5 } {} [] (fun _ => rfl) rfl

/-- C5: a nonzero sink status propagated by a range solve leaves
`commanded_pos` at its value on entry to that range solve (the update
happens only after a fully successful range), and
`itersolve_generate_steps` hands that same status to its caller: the
final call-log entry is the failing range call, its status is the
returned status, and the final `commanded_pos` is that call's entry
value. -/
theorem c5_sink_error_propagation (cbOf : move → ℚ → ℚ) (f : ℕ → Status)
    (postCb : Option (stepper_kinematics → stepper_kinematics))
    (rangeFuel fsFuel fuel : ℕ)
    (hpost : ∀ s, (applyPost postCb s).last_flush_time = s.last_flush_time) :
    (∀ (cb : ℚ → ℚ) (sk : stepper_kinematics) (ss : SinkState)
        (pt ms me : ℚ) (r : Status) (gst : GenState),
      itersolve_gen_steps_range cb f postCb rangeFuel fsFuel sk ss pt ms me
          = some (r, gst) → r ≠ 0 →
      gst.sk.commanded_pos = sk.commanded_pos)
    ∧ (∀ (sk : stepper_kinematics) (tq : Option (List move)) (ss : SinkState)
        (flush_time : ℚ) (r : Status) (sk' : stepper_kinematics)
        (ss' : SinkState) (calls : List RangeCall),
      itersolve_generate_steps cbOf f postCb rangeFuel fsFuel fuel sk tq ss
          flush_time = some (r, sk', ss', calls) → r ≠ 0 →
      ∃ c pre, calls = pre ++ [c] ∧ c.ret = r
        ∧ sk'.commanded_pos = c.entry_commanded) := by
  constructor
  · intro cb sk ss pt ms me r gst h hr
    exact (gen_steps_range_frame hpost h).2.1 hr
  · intro sk tq ss flush_time r sk' ss' calls h hr
    unfold itersolve_generate_steps at h
    cases tq with
    | none =>
      dsimp only at h
      simp only [Option.some.injEq, Prod.mk.injEq] at h
      obtain ⟨h1, _, _, _⟩ := h
      exact absurd h1.symm hr
    | some ms =>
      dsimp only at h
      exact driver_loop_err cbOf f postCb ms flush_time _ rangeFuel fsFuel
        hpost _ _ _ r sk' ss' calls h hr

set_option maxHeartbeats 4000000 in
/-- The concrete failing run: the flush reaches the end of the range,
`sds_flush` commits the pending step, the sink answers 7, and the
driver returns 7 with `commanded_pos` untouched. -/
theorem c5_run :
    itersolve_generate_steps (fun _ _ => 0) (fun _ => 7) none 3 0 2 c5sk
        (some [c5mv]) {} (10 + 2/10000)
      = some (7,
          { step_dist := 1000, commanded_pos := 0, next_step_time := 0,
            next_move_print_time := 0, next_step_dir := true,
            last_flush_time := 10 + 2/10000, last_move_time := 0,
            gen_steps_pre_active := 0, gen_steps_post_active := 0,
            active_x := true },
          { calls := [⟨true, 5, 0, 7⟩] },
          [⟨0, c5mv, 10, 10 + 2/10000, 7⟩]) := by
  norm_num [itersolve_generate_steps, driver_loop, itersolve_gen_steps_range,
    gen_loop, gen_widen, widenHigh, widenIter, sds_flush, sds_commit,
    sds_append, stepcompress_append, getMove, check_active, head_sentinel,
    tail_sentinel, NEVER_TIME, SDS_CHECK_TIME, SEEK_TIME_RESET, timeEps,
    SDS_FILTER_TIME, applyPost, c5sk, c5mv]

/-- Closed witness for `c5_sink_error_propagation`: the concrete failing
flush ends with the failing call in its log and an untouched
`commanded_pos`. -/
theorem c5_sink_error_propagation_witness :
    ∃ c pre, ([⟨0, c5mv, 10, 10 + 2/10000, 7⟩] : List RangeCall)
        = pre ++ [c] ∧ c.ret = 7
      ∧ ({ step_dist := 1000, commanded_pos := 0, next_step_time := 0,
           next_move_print_time := 0, next_step_dir := true,
           last_flush_time := 10 + 2/10000, last_move_time := 0,
           gen_steps_pre_active := 0, gen_steps_post_active := 0,
           active_x := true } : stepper_kinematics).commanded_pos
          = c.entry_commanded :=
  (c5_sink_error_propagation (fun _ _ => 0) (fun _ => 7) none 3 0 2
      (fun _ => rfl)).2
    c5sk (some [c5mv]) {} (10 + 2/10000) 7 _ _ _ c5_run (by norm_num)

/-- A failing `sds_append` fails through its commit: the sink trace ends
with the pending step carrying exactly the returned status. -/
theorem sds_append_err_trace (f : ℕ → Status) (sk : stepper_kinematics)
    (ss : SinkState) (dir : Bool) (mt st : ℚ)
    (h : (sds_append f sk ss dir mt st).1 ≠ 0) :
    (sds_append f sk ss dir mt st).2.2.calls
      = ss.calls ++ [⟨sk.next_step_dir, sk.next_move_print_time,
                      sk.next_step_time, (sds_append f sk ss dir mt st).1⟩] := by
  unfold sds_append sds_commit stepcompress_append at *
  dsimp only at *
  split_ifs at * <;> first | exact absurd rfl h | rfl

/-- A failing `sds_flush` fails through its commit: the sink trace ends
with the pending step carrying exactly the returned status. -/
theorem sds_flush_err_trace (f : ℕ → Status) (sk : stepper_kinematics)
    (ss : SinkState) (mt st : ℚ)
    (h : (sds_flush f sk ss mt st).1 ≠ 0) :
    (sds_flush f sk ss mt st).2.2.calls
      = ss.calls ++ [⟨sk.next_step_dir, sk.next_move_print_time,
                      sk.next_step_time, (sds_flush f sk ss mt st).1⟩] := by
  unfold sds_flush sds_commit stepcompress_append at *
  dsimp only at *
  split_ifs at * <;> first | exact absurd rfl h | rfl

/-- A loop exit through `gen_widen` with a nonzero status fails through
`sds_flush`: the sink trace ends with a call carrying that status. -/
theorem gen_widen_inl_err_trace {cb : ℚ → ℚ} {f : ℕ → Status}
    {postCb : Option (stepper_kinematics → stepper_kinematics)}
    {pt end_ : ℚ} {X : GenState} {out : Status × GenState}
    (hw : gen_widen cb f postCb pt end_ X = Sum.inl out)
    (hr : out.1 ≠ 0) :
    ∃ pre c, out.2.ss.calls = pre ++ [c] ∧ c.status = out.1 := by
  unfold gen_widen at hw
  dsimp only at hw
  split_ifs at hw with h1 h2
  · injection hw with hw'
    subst hw'
    exact ⟨_, _, sds_flush_err_trace f X.sk X.ss pt end_ h2, rfl⟩
  · injection hw with hw'
    subst hw'
    exact absurd rfl hr

/-- A nonzero status out of the range-solver loop is verbatim the status
of the most recent sink call. -/
theorem gen_loop_err_trace (cb : ℚ → ℚ) (f : ℕ → Status)
    (postCb : Option (stepper_kinematics → stepper_kinematics))
    (pt half end_ : ℚ) (fsFuel : ℕ) :
    ∀ n (st : GenState) (r : Status) (st' : GenState),
      gen_loop cb f postCb pt half end_ fsFuel n st = some (r, st') →
      r ≠ 0 →
      ∃ pre c, st'.ss.calls = pre ++ [c] ∧ c.status = r := by
  intro n
  induction n with
  | zero =>
    intro st r st' h
    exact absurd h (by simp [gen_loop])
  | succ n ih =>
    intro st r st' h hr
    rw [gen_loop] at h
    dsimp only at h
    split_ifs at h
    all_goals
      first
      | -- direct error return from sds_append
        (injection h with h'
         injection h' with h1 h2
         subst h1
         subst h2
         exact ⟨_, _, sds_append_err_trace f st.sk st.ss st.sdir pt _ hr, rfl⟩)
      | -- recursion
        (exact ih _ _ _ h hr)
      | -- tail through gen_widen
        (obtain ⟨out, hw, h2⟩ | ⟨st3, hw, h2⟩ := sum_elim_some_inv _ _ _ _ h
         · injection h2 with h3
           subst h3
           exact gen_widen_inl_err_trace hw hr
         · exact ih _ _ _ h2 hr)

/-- A nonzero status out of `itersolve_gen_steps_range` is verbatim the
status of the most recent sink call. -/
theorem gen_steps_range_err_trace {cb : ℚ → ℚ} {f : ℕ → Status}
    {postCb : Option (stepper_kinematics → stepper_kinematics)}
    {rangeFuel fsFuel : ℕ} {sk : stepper_kinematics} {ss : SinkState}
    {pt ms me : ℚ} {r : Status} {gst : GenState}
    (h : itersolve_gen_steps_range cb f postCb rangeFuel fsFuel sk ss pt ms me
          = some (r, gst)) (hr : r ≠ 0) :
    ∃ pre c, gst.ss.calls = pre ++ [c] ∧ c.status = r := by
  unfold itersolve_gen_steps_range at h
  dsimp only at h
  exact gen_loop_err_trace cb f postCb pt _ _ fsFuel rangeFuel _ r gst h hr

/-- Rewrite for `signbit` on a concretely negative value. -/
theorem signbit_neg {x : ℚ} (h : x < 0) : signbit x = true := by
  simp [signbit, h]

/-- Rewrite for `signbit` on a concretely nonnegative value. -/
theorem signbit_nonneg {x : ℚ} (h : 0 ≤ x) : signbit x = false := by
  simp [signbit, not_lt.2 h]

set_option maxHeartbeats 3000000 in
/-- C6 failing run: the first step is appended and left pending in the
filter; the partial-progress branch (`0 < dist < half_step`) then
commits it, the sink answers 7, and the range solver discards that
status: the flush completes and returns 0.  The sink trace shows the
call that returned 7; the caller of flush sees 0.  This contradicts the
claim (and spec paragraph 7: nonzero sink statuses are "propagated
verbatim") — the commit return value at the partial-progress call site
is ignored, unlike at the other `sds_commit` call sites. -/
theorem c6_partial_commit_status_discarded :
    itersolve_generate_steps c6cb (fun _ => 7) none 3 2 2 c6sk
        (some [c6mv]) {} (10 + 1/10000)
      = some (0,
          { step_dist := 2, commanded_pos := 2, next_step_time := 1/25000,
            next_move_print_time := 0, next_step_dir := true,
            last_flush_time := 10 + 1/10000, last_move_time := 10 + 1/10000,
            gen_steps_pre_active := 0, gen_steps_post_active := 0,
            active_x := true },
          { calls := [⟨true, 10, 1/25000, 7⟩] },
          [⟨0, c6mv, 10, 10 + 1/10000, 0⟩])
    ∧ (7 : Status) ≠ 0 := by
  have w1 : gen_loop (c6cb c6mv) (fun _ => 7) none 10 1 (1/10000) 2 3 ⟨{ step_dist := 2, commanded_pos := 0, next_step_time := 0, next_move_print_time := 0, next_step_dir := true, last_flush_time := 100001/10000, last_move_time := 0, gen_steps_pre_active := 0, gen_steps_post_active := 0, active_x := true }, {}, ⟨0, 0⟩, ⟨0, 0⟩, ⟨0, 0⟩, 1/10000, true, false, []⟩ = gen_loop (c6cb c6mv) (fun _ => 7) none 10 1 (1/10000) 2 2 ⟨{ step_dist := 2, commanded_pos := 0, next_step_time := 0, next_move_print_time := 0, next_step_dir := true, last_flush_time := 100001/10000, last_move_time := 0, gen_steps_pre_active := 0, gen_steps_post_active := 0, active_x := true }, {}, ⟨0, 0⟩, ⟨0, 0⟩, ⟨1/10000, 5/2⟩, 1/5000, true, false, []⟩ := by
    rw [show (3:ℕ) = 2+1 from rfl, gen_loop]
    norm_num [gen_widen, widenHigh, widenIter, sds_flush, sds_commit,
      sds_append, stepcompress_append, SEEK_TIME_RESET, timeEps,
      SDS_FILTER_TIME, applyPost, c6cb, c6mv]
  have w2 : gen_loop (c6cb c6mv) (fun _ => 7) none 10 1 (1/10000) 2 2 ⟨{ step_dist := 2, commanded_pos := 0, next_step_time := 0, next_move_print_time := 0, next_step_dir := true, last_flush_time := 100001/10000, last_move_time := 0, gen_steps_pre_active := 0, gen_steps_post_active := 0, active_x := true }, {}, ⟨0, 0⟩, ⟨0, 0⟩, ⟨1/10000, 5/2⟩, 1/5000, true, false, []⟩ = gen_loop (c6cb c6mv) (fun _ => 7) none 10 1 (1/10000) 2 1 ⟨{ step_dist := 2, commanded_pos := 0, next_step_time := 1/25000, next_move_print_time := 10, next_step_dir := true, last_flush_time := 100001/10000, last_move_time := 0, gen_steps_pre_active := 0, gen_steps_post_active := 0, active_x := true }, {}, ⟨1/25000, 2⟩, ⟨1/25000, 1⟩, ⟨1/10000, 5/2⟩, 1/25000, true, false, [⟨true, 10, 1/25000, 2⟩]⟩ := by
    rw [show (2:ℕ) = 1+1 from rfl, gen_loop]
    norm_num [gen_widen, widenHigh, widenIter, sds_flush, sds_commit,
      sds_append, stepcompress_append, SEEK_TIME_RESET, timeEps,
      SDS_FILTER_TIME, applyPost, c6cb, c6mv, itersolve_find_step,
      findStepAux, fs_guess, signbit_neg, signbit_nonneg, abs_of_nonneg,
      abs_of_nonpos]
  have w3 : gen_loop (c6cb c6mv) (fun _ => 7) none 10 1 (1/10000) 2 1 ⟨{ step_dist := 2, commanded_pos := 0, next_step_time := 1/25000, next_move_print_time := 10, next_step_dir := true, last_flush_time := 100001/10000, last_move_time := 0, gen_steps_pre_active := 0, gen_steps_post_active := 0, active_x := true }, {}, ⟨1/25000, 2⟩, ⟨1/25000, 1⟩, ⟨1/10000, 5/2⟩, 1/25000, true, false, [⟨true, 10, 1/25000, 2⟩]⟩ = some (0, ⟨{ step_dist := 2, commanded_pos := 2, next_step_time := 1/25000, next_move_print_time := 0, next_step_dir := true, last_flush_time := 100001/10000, last_move_time := 0, gen_steps_pre_active := 0, gen_steps_post_active := 0, active_x := true }, { calls := [⟨true, 10, 1/25000, 7⟩] }, ⟨1/25000, 2⟩, ⟨1/25000, 1⟩, ⟨1/10000, 5/2⟩, 1/25000, true, false, [⟨true, 10, 1/25000, 2⟩]⟩) := by
    rw [show (1:ℕ) = 0+1 from rfl, gen_loop]
    norm_num [gen_widen, widenHigh, widenIter, sds_flush, sds_commit,
      sds_append, stepcompress_append, SEEK_TIME_RESET, timeEps,
      SDS_FILTER_TIME, applyPost]
  have eR : itersolve_gen_steps_range (c6cb c6mv) (fun _ => 7) none 3 2
        { step_dist := 2, commanded_pos := 0, next_step_time := 0, next_move_print_time := 0, next_step_dir := true, last_flush_time := 100001/10000, last_move_time := 0, gen_steps_pre_active := 0, gen_steps_post_active := 0, active_x := true } {} 10 10 (100001/10000)
      = some (0, ⟨{ step_dist := 2, commanded_pos := 2, next_step_time := 1/25000, next_move_print_time := 0, next_step_dir := true, last_flush_time := 100001/10000, last_move_time := 0, gen_steps_pre_active := 0, gen_steps_post_active := 0, active_x := true }, { calls := [⟨true, 10, 1/25000, 7⟩] }, ⟨1/25000, 2⟩, ⟨1/25000, 1⟩, ⟨1/10000, 5/2⟩, 1/25000, true, false, [⟨true, 10, 1/25000, 2⟩]⟩) := by
    have w0 : itersolve_gen_steps_range (c6cb c6mv) (fun _ => 7) none 3 2
        { step_dist := 2, commanded_pos := 0, next_step_time := 0, next_move_print_time := 0, next_step_dir := true, last_flush_time := 100001/10000, last_move_time := 0, gen_steps_pre_active := 0, gen_steps_post_active := 0, active_x := true } {} 10 10 (100001/10000) = gen_loop (c6cb c6mv) (fun _ => 7) none 10 1 (1/10000) 2 3 ⟨{ step_dist := 2, commanded_pos := 0, next_step_time := 0, next_move_print_time := 0, next_step_dir := true, last_flush_time := 100001/10000, last_move_time := 0, gen_steps_pre_active := 0, gen_steps_post_active := 0, active_x := true }, {}, ⟨0, 0⟩, ⟨0, 0⟩, ⟨0, 0⟩, 1/10000, true, false, []⟩ := by
      norm_num [itersolve_gen_steps_range, SEEK_TIME_RESET]
    exact w0.trans (w1.trans (w2.trans w3))
  have hpt : c6mv.print_time = 10 := rfl
  have hmt : c6mv.move_t = 1/10000 := rfl
  have hax : c6mv.axes_r.x = 1 := rfl
  have hay : c6mv.axes_r.y = 0 := rfl
  have haz : c6mv.axes_r.z = 0 := rfl
  have e0 : itersolve_generate_steps c6cb (fun _ => 7) none 3 2 2 c6sk
        (some [c6mv]) {} (10 + 1/10000)
      = driver_loop c6cb (fun _ => 7) none [c6mv] (100001/10000) (1/1000) 3 2 2 DPhase.skip ⟨1, 10, 1/1000, { step_dist := 2, commanded_pos := 0, next_step_time := 0, next_move_print_time := 0, next_step_dir := true, last_flush_time := 100001/10000, last_move_time := 0, gen_steps_pre_active := 0, gen_steps_post_active := 0, active_x := true }, {}⟩ := by
    norm_num [itersolve_generate_steps, SDS_CHECK_TIME, c6sk]
  have e1 : driver_loop c6cb (fun _ => 7) none [c6mv] (100001/10000) (1/1000) 3 2 2 DPhase.skip ⟨1, 10, 1/1000, { step_dist := 2, commanded_pos := 0, next_step_time := 0, next_move_print_time := 0, next_step_dir := true, last_flush_time := 100001/10000, last_move_time := 0, gen_steps_pre_active := 0, gen_steps_post_active := 0, active_x := true }, {}⟩ = driver_loop c6cb (fun _ => 7) none [c6mv] (100001/10000) (1/1000) 3 2 1 DPhase.main ⟨1, 10, 1/1000, { step_dist := 2, commanded_pos := 0, next_step_time := 0, next_move_print_time := 0, next_step_dir := true, last_flush_time := 100001/10000, last_move_time := 0, gen_steps_pre_active := 0, gen_steps_post_active := 0, active_x := true }, {}⟩ := by
    rw [show (2:ℕ) = 1+1 from rfl, driver_loop]
    norm_num [getMove, hpt, hmt]
  have e2 : driver_loop c6cb (fun _ => 7) none [c6mv] (100001/10000) (1/1000) 3 2 1 DPhase.main ⟨1, 10, 1/1000, { step_dist := 2, commanded_pos := 0, next_step_time := 0, next_move_print_time := 0, next_step_dir := true, last_flush_time := 100001/10000, last_move_time := 0, gen_steps_pre_active := 0, gen_steps_post_active := 0, active_x := true }, {}⟩
      = some (0, { step_dist := 2, commanded_pos := 2, next_step_time := 1/25000, next_move_print_time := 0, next_step_dir := true, last_flush_time := 100001/10000, last_move_time := 100001/10000, gen_steps_pre_active := 0, gen_steps_post_active := 0, active_x := true }, { calls := [⟨true, 10, 1/25000, 7⟩] },
          [⟨0, c6mv, 10, 100001/10000, 0⟩]) := by
    rw [show (1:ℕ) = 0+1 from rfl, driver_loop]
    norm_num [getMove, hpt, hmt, hax, hay, haz, check_active, timeEps, eR]
  constructor
  · rw [e0, e1, e2]
    norm_num
  · norm_num

/-- The scan of `ica_scan` stated precisely: past a prefix of inactive
moves that end before `ft`, the first move decides the result — its
`print_time` if it is active (with no regard to where it lies relative
to `ft`), and 0 if it is inactive and ends at or after `ft`. -/
theorem ica_scan_spec (sk : stepper_kinematics) (ft : ℚ) (pre : List move) :
    ∀ (m : move) (post : List move),
      (∀ mv ∈ pre, check_active sk mv = false ∧ mv.print_time + mv.move_t < ft) →
      ((check_active sk m = true →
          ica_scan sk ft (pre ++ m :: post) = m.print_time)
        ∧ (check_active sk m = false → ft ≤ m.print_time + m.move_t →
          ica_scan sk ft (pre ++ m :: post) = 0)) := by
  induction pre with
  | nil =>
    intro m post _
    constructor
    · intro hm
      simp [ica_scan, hm]
    · intro hm hft
      simp [ica_scan, hm, hft]
  | cons p rest ih =>
    intro m post hpre
    have hp := hpre p (List.mem_cons_self p rest)
    have hrec := ih m post (fun mv hmv => hpre mv (List.mem_cons_of_mem p hmv))
    have hstep : ica_scan sk ft ((p :: rest) ++ m :: post)
        = ica_scan sk ft (rest ++ m :: post) := by
      simp [ica_scan, hp.1, not_le.mpr hp.2]
    constructor
    · intro hm
      rw [hstep]
      exact hrec.1 hm
    · intro hm hft
      rw [hstep]
      exact hrec.2 hm hft

/-- C7 (amended): `itersolve_check_active` returns 0 with no queue;
otherwise, after skipping the moves that end at or before
`last_flush_time`, the first remaining move past any prefix of inactive
moves ending before `flush_time` decides the result: its `print_time`
if the activity predicate holds for it — *even when the move lies
entirely after `flush_time`*, the cutoff is not checked before the
activity test — and 0 if it is inactive and ends at or after
`flush_time`. -/
theorem c7_first_active (sk : stepper_kinematics) (ms pre post : List move)
    (m : move) (ft : ℚ)
    (hsplit : ms.dropWhile
        (fun mv => decide (mv.print_time + mv.move_t ≤ sk.last_flush_time))
      = pre ++ m :: post)
    (hpre : ∀ mv ∈ pre, check_active sk mv = false
        ∧ mv.print_time + mv.move_t < ft) :
    itersolve_check_active sk none ft = 0
    ∧ (check_active sk m = true →
        itersolve_check_active sk (some ms) ft = m.print_time)
    ∧ (check_active sk m = false → ft ≤ m.print_time + m.move_t →
        itersolve_check_active sk (some ms) ft = 0) := by
  have h := ica_scan_spec sk ft pre m post hpre
  refine ⟨rfl, ?_, ?_⟩
  · intro hm
    show ica_scan sk ft _ = _
    rw [hsplit]
    exact h.1 hm
  · intro hm hft
    show ica_scan sk ft _ = _
    rw [hsplit]
    exact h.2 hm hft

/-- Closed witness for `c7_first_active`: a queue holding the single
active move `c7m2`; the scan returns its print time 2. -/
theorem c7_first_active_witness :
    ([c7m2].dropWhile
        (fun mv => decide (mv.print_time + mv.move_t ≤ c7sk.last_flush_time))
      = [] ++ c7m2 :: [])
    ∧ itersolve_check_active c7sk (some [c7m2]) 1 = c7m2.print_time := by
  have hsplit : [c7m2].dropWhile
      (fun mv => decide (mv.print_time + mv.move_t ≤ c7sk.last_flush_time))
      = [] ++ c7m2 :: [] := by
    norm_num [List.dropWhile, c7sk, c7m2]
  refine ⟨hsplit, ?_⟩
  refine (c7_first_active c7sk [c7m2] [] [] c7m2 1 hsplit ?_).2.1 ?_
  · intro mv hmv
    cases hmv
  · norm_num [check_active, c7sk, c7m2]

/-- C7 counterexample run: with the queue `[c7m1, c7m2]`, flush time 1
and `last_flush_time` 0, no move is active within the window `[0, 1]`
(`c7m1` is inactive, `c7m2` starts at 2), yet `itersolve_check_active`
returns 2 ≠ 0: the code tests the activity predicate before the
`flush_time` cutoff, so an active move entirely outside the window is
still reported.  This refutes the claim's "returns 0 when no move is
active for this stepper within [last_flush_time, flush_time]". -/
theorem c7_active_outside_window :
    itersolve_check_active c7sk (some [c7m1, c7m2]) 1 = 2
    ∧ ([c7m1, c7m2].all
        fun m => !activeInWindow c7sk c7sk.last_flush_time 1 m) = true
    ∧ (2 : ℚ) ≠ 0 := by
  refine ⟨?_, ?_, by norm_num⟩
  · norm_num [itersolve_check_active, ica_scan, check_active, c7sk, c7m1,
      c7m2, List.dropWhile]
  · norm_num [activeInWindow, check_active, c7sk, c7m1, c7m2]

/-- A `timesMono` log read off elementwise: every step time lies in
`[t, hi]`. -/
theorem timesMono_bounds (hi : ℚ) :
    ∀ (l : List StepAppend) (t : ℚ), timesMono hi t l = true →
      ∀ e ∈ l, t ≤ e.stime ∧ e.stime ≤ hi := by
  intro l
  induction l with
  | nil => intro t _ e he; cases he
  | cons a rest ih =>
    intro t h e he
    rw [timesMono, Bool.and_eq_true, Bool.and_eq_true] at h
    obtain ⟨⟨h1, h2⟩, h3⟩ := h
    rw [decide_eq_true_eq] at h1 h2
    rcases List.mem_cons.mp he with rfl | he'
    · exact ⟨h1, h2⟩
    · obtain ⟨g1, g2⟩ := ih a.stime h3 e he'
      exact ⟨h1.trans g1, g2⟩

/-- The seek-delta update after a successful append is positive. -/
theorem sd3_pos (dc : Bool) (sd1 : ℚ) :
    0 < (if (dc : Prop) ∧ (if sd1 < timeEps then timeEps else sd1) > SEEK_TIME_RESET
         then SEEK_TIME_RESET
         else (if sd1 < timeEps then timeEps else sd1)) := by
  have h0 : (0:ℚ) < timeEps := by norm_num [timeEps]
  have h1 : (0:ℚ) < SEEK_TIME_RESET := by norm_num [SEEK_TIME_RESET]
  by_cases hlt : sd1 < timeEps
  · simp only [if_pos hlt]
    split_ifs
    · exact h1
    · exact h0
  · simp only [if_neg hlt]
    split_ifs
    · exact h1
    · linarith [not_lt.mp hlt]

/-- The widening iteration, run with a budget `n` such that
`lowT - lastT < seek * 2 ^ n`, overshoots `lowT` and keeps a positive
seek delta. -/
theorem widenIter_gt (lastT lowT : ℚ) :
    ∀ (n : ℕ) (seek : ℚ), 0 < seek → lowT - lastT < seek * 2 ^ n →
      lowT < (widenIter lastT lowT seek n).1
      ∧ 0 < (widenIter lastT lowT seek n).2 := by
  intro n
  induction n with
  | zero =>
    intro seek hs h
    rw [widenIter]
    constructor
    · simp only []
      nlinarith
    · simp only []
      linarith
  | succ n ih =>
    intro seek hs h
    rw [widenIter]
    split_ifs with hle
    · refine ih (seek + seek) (by linarith) ?_
      calc lowT - lastT < seek * 2 ^ (n + 1) := h
        _ = (seek + seek) * 2 ^ n := by rw [pow_succ]; ring
    · constructor
      · simp only []
        exact not_le.mp hle
      · simp only []
        linarith

/-- `widenHigh`'s budget is always sufficient: with a positive seek
delta the returned high time strictly exceeds `lowT`, and the doubled
delta stays positive. -/
theorem rat_le_ceil (q : ℚ) : q ≤ (q.ceil : ℚ) := by
  rw [Rat.ceil]
  split_ifs with h1
  · rw [← Rat.num_div_den q, h1]
    norm_num
  · have hdz : (0:ℤ) < (q.den : ℤ) := by exact_mod_cast q.den_pos
    have hd : (0:ℚ) < (q.den : ℚ) := by exact_mod_cast q.den_pos
    have h3 := Int.ediv_add_emod q.num (q.den : ℤ)
    have h4 := Int.emod_lt_of_pos q.num hdz
    have h2 : q.num < (q.num / (q.den : ℤ) + 1) * (q.den : ℤ) := by
      have he : (q.num / (q.den : ℤ) + 1) * (q.den : ℤ)
          = (q.den : ℤ) * (q.num / (q.den : ℤ)) + (q.den : ℤ) := by ring
      rw [he]
      linarith
    conv_lhs => rw [← Rat.num_div_den q]
    rw [div_le_iff hd]
    exact_mod_cast h2.le

/-- `widenHigh`'s budget is always sufficient: with a positive seek
delta the returned high time strictly exceeds `lowT`, and the doubled
delta stays positive. -/
theorem widenHigh_gt (lastT lowT seek : ℚ) (hs : 0 < seek) :
    lowT < (widenHigh lastT lowT seek).1
    ∧ 0 < (widenHigh lastT lowT seek).2 := by
  unfold widenHigh
  refine widenIter_gt lastT lowT _ seek hs ?_
  set q : ℚ := (lowT - lastT) / seek with hq
  have hql : lowT - lastT = q * seek := by
    rw [hq]
    field_simp
  have h1 : q ≤ (q.ceil : ℚ) := rat_le_ceil q
  have h2 : (q.ceil : ℚ) ≤ ((q.ceil.toNat : ℕ) : ℚ) := by
    exact_mod_cast Int.self_le_toNat q.ceil
  have h3 : ((q.ceil.toNat : ℕ) : ℚ) < 2 ^ (q.ceil.toNat + 1) := by
    have ha := Nat.lt_two_pow q.ceil.toNat
    have hb : q.ceil.toNat < 2 ^ (q.ceil.toNat + 1) :=
      lt_of_lt_of_le ha (Nat.pow_le_pow_right (by norm_num) (Nat.le_succ _))
    exact_mod_cast hb
  have hq2 : q < 2 ^ (q.ceil.toNat + 1) := lt_of_le_of_lt (h1.trans h2) h3
  rw [hql]
  calc q * seek < 2 ^ (q.ceil.toNat + 1) * seek :=
        mul_lt_mul_of_pos_right hq2 hs
    _ = seek * 2 ^ (q.ceil.toNat + 1) := by ring

/-- The false-position interpolation lies in any interval containing
both bracket times, as long as the bracket positions have opposite
signs. -/
theorem fs_guess_mem (lt ht lp hp A B : ℚ)
    (hlt1 : A ≤ lt) (hlt2 : lt ≤ B) (hht1 : A ≤ ht) (hht2 : ht ≤ B)
    (hsign : (hp < 0 ∧ 0 ≤ lp) ∨ (0 ≤ hp ∧ lp < 0)) :
    A ≤ (lt * hp - ht * lp) / (hp - lp)
    ∧ (lt * hp - ht * lp) / (hp - lp) ≤ B := by
  obtain ⟨hhp, hlp⟩ | ⟨hhp, hlp⟩ := hsign
  · have hd : hp - lp < 0 := by linarith
    constructor
    · rw [le_div_iff_of_neg hd]
      nlinarith [mul_nonneg (sub_nonneg.mpr hht1) hlp,
        mul_nonpos_of_nonneg_of_nonpos (sub_nonneg.mpr hlt1) hhp.le]
    · rw [div_le_iff_of_neg hd]
      nlinarith [mul_nonneg (sub_nonneg.mpr hht2) hlp,
        mul_nonpos_of_nonneg_of_nonpos (sub_nonneg.mpr hlt2) hhp.le]
  · have hd : 0 < hp - lp := by linarith
    constructor
    · rw [le_div_iff hd]
      nlinarith [mul_nonneg (sub_nonneg.mpr hlt1) hhp,
        mul_nonpos_of_nonneg_of_nonpos (sub_nonneg.mpr hht1) hlp.le]
    · rw [div_le_iff hd]
      nlinarith [mul_nonneg (sub_nonneg.mpr hlt2) hhp,
        mul_nonpos_of_nonneg_of_nonpos (sub_nonneg.mpr hht2) hlp.le]

/-- Every false-position iterate stays within the initial time bracket:
with bracket and best-guess times inside `[A, B]` and the bracket
endpoint signs split by `hs`, the returned step time stays in `[A, B]`
for every fuel. -/
theorem findStepAux_time_bounds (cb : ℚ → ℚ) (target : ℚ) (hs : Bool)
    (A B : ℚ) :
    ∀ (n : ℕ) (s : fsstate),
      A ≤ s.low.time → s.low.time ≤ B →
      A ≤ s.high.time → s.high.time ≤ B →
      A ≤ s.best.time → s.best.time ≤ B →
      signbit s.low.position ≠ hs → signbit s.high.position = hs →
      A ≤ (findStepAux cb target hs n s).1.time
      ∧ (findStepAux cb target hs n s).1.time ≤ B := by
  intro n
  induction n with
  | zero =>
    intro s _ _ _ _ h5 h6 _ _
    exact ⟨h5, h6⟩
  | succ n ih =>
    intro s h1 h2 h3 h4 h5 h6 hsl hsh
    rw [findStepAux]
    dsimp only
    have hsign : (s.high.position < 0 ∧ 0 ≤ s.low.position)
        ∨ (0 ≤ s.high.position ∧ s.low.position < 0) := by
      cases hs
      · refine Or.inr ⟨?_, ?_⟩
        · simpa [signbit] using hsh
        · have : signbit s.low.position = true := by
            cases hlo : signbit s.low.position
            · exact absurd hlo hsl
            · rfl
          simpa [signbit] using this
      · refine Or.inl ⟨?_, ?_⟩
        · simpa [signbit] using hsh
        · have : signbit s.low.position = false := by
            cases hlo : signbit s.low.position
            · rfl
            · exact absurd hlo hsl
          simpa [signbit] using this
    have hg : A ≤ fs_guess s ∧ fs_guess s ≤ B := by
      rw [fs_guess]
      exact fs_guess_mem s.low.time s.high.time s.low.position s.high.position
        A B h1 h2 h3 h4 hsign
    split_ifs with hconv hsgn
    · exact ⟨h5, h6⟩
    · exact ih ⟨s.low, ⟨fs_guess s, cb (fs_guess s) - target⟩,
        ⟨fs_guess s, cb (fs_guess s)⟩⟩ h1 h2 hg.1 hg.2 hg.1 hg.2 hsl hsgn
    · exact ih ⟨⟨fs_guess s, cb (fs_guess s) - target⟩, s.high,
        ⟨fs_guess s, cb (fs_guess s)⟩⟩ hg.1 hg.2 h3 h4 hg.1 hg.2 hsgn hsh

/-- The step time returned by the root finder lies between the bracket
times: each early return picks one of the endpoints, and each
false-position iterate is a convex combination of the current bracket
times. -/
theorem find_step_time_bounds (cb : ℚ → ℚ) (fsFuel : ℕ) (low high : timepos)
    (target : ℚ) (hlh : low.time ≤ high.time) :
    low.time ≤ (itersolve_find_step cb fsFuel low high target).time
    ∧ (itersolve_find_step cb fsFuel low high target).time ≤ high.time := by
  unfold itersolve_find_step
  dsimp only
  split_ifs with h1 h2
  · exact ⟨hlh, le_refl _⟩
  · exact ⟨le_refl _, hlh⟩
  · exact findStepAux_time_bounds cb target (signbit (high.position - target))
      low.time high.time fsFuel
      ⟨⟨low.time, low.position - target⟩, ⟨high.time, high.position - target⟩, high⟩
      (le_refl _) hlh hlh (le_refl _) hlh (le_refl _)
      (fun hEq => h2 hEq.symm) rfl

/-- A loop exit through `gen_widen` keeps `last` and the log, and on a
clean exit without hook publishes the entry `last.position` into
`commanded_pos`. -/
theorem gen_widen_inl_chain {cb : ℚ → ℚ} {f : ℕ → Status}
    {postCb : Option (stepper_kinematics → stepper_kinematics)}
    {pt end_ : ℚ} {X : GenState} {out : Status × GenState}
    (hw : gen_widen cb f postCb pt end_ X = Sum.inl out) :
    out.2.last = X.last ∧ out.2.log = X.log
    ∧ (out.1 = 0 → postCb = none →
        out.2.sk.commanded_pos = X.last.position) := by
  unfold gen_widen at hw
  dsimp only at hw
  split_ifs at hw with h1 h2
  · injection hw with hw'
    subst hw'
    exact ⟨rfl, rfl, fun hz _ => absurd hz h2⟩
  · injection hw with hw'
    subst hw'
    refine ⟨rfl, rfl, fun _ hnone => ?_⟩
    subst hnone
    simp [applyPost]

/-- A widening step preserves the bracket invariant: the new low bound
is the old high bound, the new high time stays within `(X.high.time,
end_]`, and the seek delta stays positive. -/
theorem gen_widen_inr_inv {cb : ℚ → ℚ} {f : ℕ → Status}
    {postCb : Option (stepper_kinematics → stepper_kinematics)}
    {pt end_ : ℚ} {X Y : GenState}
    (hlast : X.last.time ≤ X.low.time) (hlh : X.low.time ≤ X.high.time)
    (hs : 0 < X.seek_time_delta)
    (hw : gen_widen cb f postCb pt end_ X = Sum.inr Y) :
    Y.last.time ≤ Y.low.time ∧ Y.low.time ≤ Y.high.time
    ∧ Y.high.time ≤ end_ ∧ 0 < Y.seek_time_delta := by
  have hwgt := widenHigh_gt X.last.time X.high.time X.seek_time_delta hs
  unfold gen_widen at hw
  dsimp only at hw
  by_cases h1 : X.high.time ≥ end_
  · rw [if_pos h1] at hw
    split_ifs at hw <;> exact absurd hw (by simp)
  · rw [if_neg h1] at hw
    injection hw with hw'
    subst hw'
    refine ⟨hlast.trans hlh, ?_, ?_, hwgt.2⟩
    · dsimp only
      split_ifs with h3
      · linarith [not_le.mp h1]
      · exact le_of_lt hwgt.1
    · dsimp only
      split_ifs with h3
      · exact le_refl _
      · exact not_lt.mp h3

set_option maxHeartbeats 2000000 in
/-- The range-solver loop appends steps whose ghost log forms a
position chain advancing by exactly `±(half + half)` per step in the
recorded direction, with monotone step times bounded below by the
entry `last.time` and above by the range end, all carrying the move
print time; a clean exit without hook publishes the chain's final
position into `commanded_pos`. -/
theorem gen_loop_chain (cb : ℚ → ℚ) (f : ℕ → Status)
    (postCb : Option (stepper_kinematics → stepper_kinematics))
    (pt half end_ : ℚ) (fsFuel : ℕ) :
    ∀ n (st : GenState) (r : Status) (st' : GenState),
      st.last.time ≤ st.low.time → st.low.time ≤ st.high.time →
      st.high.time ≤ end_ → 0 < st.seek_time_delta →
      gen_loop cb f postCb pt half end_ fsFuel n st = some (r, st') →
      ∃ new, st'.log = st.log ++ new
        ∧ stepChain (half + half) st.last.position new = true
        ∧ timesMono end_ st.last.time new = true
        ∧ mtimesAre pt new = true
        ∧ (r = 0 → postCb = none →
            st'.sk.commanded_pos = chainEnd st.last.position new) := by
  intro n
  induction n with
  | zero =>
    intro st r st' _ _ _ _ h
    exact absurd h (by simp [gen_loop])
  | succ n ih =>
    intro st r st' hv1 hv2 hv3 hv4 h
    have heps : (0:ℚ) < timeEps := by norm_num [timeEps]
    have hstr : (0:ℚ) < SEEK_TIME_RESET := by norm_num [SEEK_TIME_RESET]
    rw [gen_loop] at h
    dsimp only at h
    set dist := (if st.sdir = true then st.high.position - st.last.position
      else -(st.high.position - st.last.position)) with hdq
    set target := st.last.position + (if st.sdir = true then half else -half)
      with htg
    split at h
    case isTrue hdist =>
      have hfs := find_step_time_bounds cb fsFuel st.low st.high target hv2
      split at h
      case isTrue hr =>
        injection h with h'
        injection h' with hr1 hr2
        subst hr1
        subst hr2
        refine ⟨_, rfl, ?_, ?_, ?_, ?_⟩
        · simp only [stepChain, Bool.and_true, decide_eq_true_eq]
          try dsimp only
          rw [htg]
          split_ifs <;> ring
        · simp only [timesMono, Bool.and_true, Bool.and_eq_true,
            decide_eq_true_eq]
          try dsimp only
          exact ⟨hv1.trans hfs.1, hfs.2.trans hv3⟩
        · simp [mtimesAre]
        · intro h0 _
          exact absurd h0 hr
      case isFalse hr =>
        split at h
        case isTrue hlt =>
          obtain ⟨new2, hlog, hchain, htimes, hmt, hcmd⟩ :=
            ih _ _ _ (by exact le_refl _) (by exact le_of_lt hlt) (by exact hv3)
              (by exact sd3_pos _ _) h
          refine ⟨⟨st.sdir, pt, (itersolve_find_step cb fsFuel st.low st.high target).time,
              target + (if st.sdir = true then half else -half)⟩ :: new2, ?_, ?_, ?_, ?_, ?_⟩
          · rw [hlog]
            simp
          · simp only [stepChain, Bool.and_eq_true, decide_eq_true_eq]
            constructor
            · dsimp only
              rw [htg]
              split_ifs <;> ring
            · exact hchain
          · simp only [timesMono, Bool.and_eq_true, decide_eq_true_eq]
            try dsimp only
            exact ⟨⟨hv1.trans hfs.1, hfs.2.trans hv3⟩, htimes⟩
          · simp only [mtimesAre, List.all_cons, Bool.and_eq_true,
              decide_eq_true_eq]
            exact ⟨by trivial, hmt⟩
          · intro h0 hpn
            exact hcmd h0 hpn
        case isFalse hlt =>
          rcases sum_elim_some_inv _ _ _ _ h with ⟨out, hwid, h2⟩ | ⟨st3, hwid, h2⟩
          · injection h2 with h3
            subst h3
            obtain ⟨w1, w2, w3⟩ := gen_widen_inl_chain hwid
            refine ⟨[⟨st.sdir, pt, (itersolve_find_step cb fsFuel st.low st.high target).time,
              target + (if st.sdir = true then half else -half)⟩], ?_, ?_, ?_, ?_, ?_⟩
            · rw [w2]
            · simp only [stepChain, Bool.and_true, decide_eq_true_eq]
              try dsimp only
              rw [htg]
              split_ifs <;> ring
            · simp only [timesMono, Bool.and_true, Bool.and_eq_true,
                decide_eq_true_eq]
              try dsimp only
              exact ⟨hv1.trans hfs.1, hfs.2.trans hv3⟩
            · simp [mtimesAre]
            · intro h0 hpn
              exact w3 h0 hpn
          · obtain ⟨j1, j2, j3, j4⟩ := gen_widen_inr_inv (by exact le_refl _) (by exact hfs.2)
              (by exact sd3_pos _ _) hwid
            obtain ⟨f1, f2, f3⟩ := gen_widen_inr_frame hwid
            obtain ⟨new2, hlog, hchain, htimes, hmt, hcmd⟩ :=
              ih _ _ _ j1 j2 j3 j4 h2
            rw [f2] at hchain htimes
            refine ⟨⟨st.sdir, pt, (itersolve_find_step cb fsFuel st.low st.high target).time,
              target + (if st.sdir = true then half else -half)⟩ :: new2, ?_, ?_, ?_, ?_, ?_⟩
            · rw [hlog, f3]
              simp
            · simp only [stepChain, Bool.and_eq_true, decide_eq_true_eq]
              constructor
              · dsimp only
                rw [htg]
                split_ifs <;> ring
              · exact hchain
            · simp only [timesMono, Bool.and_eq_true, decide_eq_true_eq]
              try dsimp only
              exact ⟨⟨hv1.trans hfs.1, hfs.2.trans hv3⟩, htimes⟩
            · simp only [mtimesAre, List.all_cons, Bool.and_eq_true,
                decide_eq_true_eq]
              exact ⟨by trivial, hmt⟩
            · intro h0 hpn
              have hc := hcmd h0 hpn
              rw [f2] at hc
              exact hc
    case isFalse hdist =>
      split at h
      case isTrue hdp =>
        split at h
        case isTrue hpend =>
          rcases sum_elim_some_inv _ _ _ _ h with ⟨out, hwid, h2⟩ | ⟨st3, hwid, h2⟩
          · injection h2 with h3
            subst h3
            obtain ⟨w1, w2, w3⟩ := gen_widen_inl_chain hwid
            refine ⟨[], ?_, rfl, rfl, rfl, ?_⟩
            · rw [w2]
              simp
            · intro h0 hpn
              exact w3 h0 hpn
          · obtain ⟨j1, j2, j3, j4⟩ := gen_widen_inr_inv (by exact hv1) (by exact hv2) (by exact hv4) hwid
            obtain ⟨f1, f2, f3⟩ := gen_widen_inr_frame hwid
            obtain ⟨new2, hlog, hchain, htimes, hmt, hcmd⟩ :=
              ih _ _ _ j1 j2 j3 j4 h2
            rw [f2] at hchain htimes
            refine ⟨new2, ?_, hchain, htimes, hmt, ?_⟩
            · rw [hlog, f3]
            · intro h0 hpn
              have hc := hcmd h0 hpn
              rw [f2] at hc
              exact hc
        case isFalse hpend =>
          rcases sum_elim_some_inv _ _ _ _ h with ⟨out, hwid, h2⟩ | ⟨st3, hwid, h2⟩
          · injection h2 with h3
            subst h3
            obtain ⟨w1, w2, w3⟩ := gen_widen_inl_chain hwid
            refine ⟨[], ?_, rfl, rfl, rfl, ?_⟩
            · rw [w2]
              simp
            · intro h0 hpn
              exact w3 h0 hpn
          · obtain ⟨j1, j2, j3, j4⟩ := gen_widen_inr_inv (by exact hv1) (by exact hv2) (by exact hv4) hwid
            obtain ⟨f1, f2, f3⟩ := gen_widen_inr_frame hwid
            obtain ⟨new2, hlog, hchain, htimes, hmt, hcmd⟩ :=
              ih _ _ _ j1 j2 j3 j4 h2
            rw [f2] at hchain htimes
            refine ⟨new2, ?_, hchain, htimes, hmt, ?_⟩
            · rw [hlog, f3]
            · intro h0 hpn
              have hc := hcmd h0 hpn
              rw [f2] at hc
              exact hc
      case isFalse hdp =>
        split at h
        case isTrue hdc =>
          split at h
          case isTrue hlow =>
            obtain ⟨new2, hlog, hchain, htimes, hmt, hcmd⟩ :=
              ih _ _ _ (by exact hv1) (by exact hv2) (by exact hv3)
                (by try dsimp only
                    split_ifs
                    · exact hstr
                    · exact hv4) h
            exact ⟨new2, by rw [hlog], hchain, htimes, hmt, hcmd⟩
          case isFalse hlow =>
            split at h
            case isTrue hhi =>
              obtain ⟨new2, hlog, hchain, htimes, hmt, hcmd⟩ :=
                ih _ _ _ (by exact hv1)
                  (by
                    try dsimp only
                    linarith [not_lt.mp hlow, hhi, heps])
                  (by
                    try dsimp only
                    linarith [hv1, hv2, hv3])
                  (by try dsimp only
                      split_ifs
                      · exact hstr
                      · exact hv4) h
              exact ⟨new2, by rw [hlog], hchain, htimes, hmt, hcmd⟩
            case isFalse hhi =>
              rcases sum_elim_some_inv _ _ _ _ h with ⟨out, hwid, h2⟩ | ⟨st3, hwid, h2⟩
              · injection h2 with h3
                subst h3
                obtain ⟨w1, w2, w3⟩ := gen_widen_inl_chain hwid
                refine ⟨[], ?_, rfl, rfl, rfl, ?_⟩
                · rw [w2]
                  simp
                · intro h0 hpn
                  exact w3 h0 hpn
              · obtain ⟨j1, j2, j3, j4⟩ := gen_widen_inr_inv (by exact hv1) (by exact hv2)
                  (by try dsimp only
                      split_ifs
                      · exact hstr
                      · exact hv4) hwid
                obtain ⟨f1, f2, f3⟩ := gen_widen_inr_frame hwid
                obtain ⟨new2, hlog, hchain, htimes, hmt, hcmd⟩ :=
                  ih _ _ _ j1 j2 j3 j4 h2
                rw [f2] at hchain htimes
                refine ⟨new2, ?_, hchain, htimes, hmt, ?_⟩
                · rw [hlog, f3]
                · intro h0 hpn
                  have hc := hcmd h0 hpn
                  rw [f2] at hc
                  exact hc
        case isFalse hdc =>
          rcases sum_elim_some_inv _ _ _ _ h with ⟨out, hwid, h2⟩ | ⟨st3, hwid, h2⟩
          · injection h2 with h3
            subst h3
            obtain ⟨w1, w2, w3⟩ := gen_widen_inl_chain hwid
            refine ⟨[], ?_, rfl, rfl, rfl, ?_⟩
            · rw [w2]
              simp
            · intro h0 hpn
              exact w3 h0 hpn
          · obtain ⟨j1, j2, j3, j4⟩ := gen_widen_inr_inv (by exact hv1) (by exact hv2) (by exact hv4) hwid
            obtain ⟨f1, f2, f3⟩ := gen_widen_inr_frame hwid
            obtain ⟨new2, hlog, hchain, htimes, hmt, hcmd⟩ :=
              ih _ _ _ j1 j2 j3 j4 h2
            rw [f2] at hchain htimes
            refine ⟨new2, ?_, hchain, htimes, hmt, ?_⟩
            · rw [hlog, f3]
            · intro h0 hpn
              have hc := hcmd h0 hpn
              rw [f2] at hc
              exact hc

/-- An `mtimesAre` log read off elementwise. -/
theorem mtimesAre_mem (pt : ℚ) (l : List StepAppend)
    (h : mtimesAre pt l = true) : ∀ e ∈ l, e.mtime = pt := by
  simpa [mtimesAre, List.all_eq_true, decide_eq_true_eq] using h

/-- C1: on every range solve, the appended candidate steps advance the
solver's tracked position by exactly `±step_dist` each (in the recorded
direction), carry the move's print time, and their step times are
monotone non-decreasing, bounded by the solved range; on clean
completion without hook, `commanded_pos` equals the end of the position
chain.  Across two solves on non-overlapping, ordered ranges (as the
flush driver issues them), every step of the second is at or after
every step of the first in absolute (move print time + step time)
terms. -/
theorem c1_step_chain_monotone {cb : ℚ → ℚ} {f : ℕ → Status}
    {postCb : Option (stepper_kinematics → stepper_kinematics)}
    {rangeFuel fsFuel : ℕ} {sk sk₂ : stepper_kinematics} {ss ss₂ : SinkState}
    {pt ms me pt₂ ms₂ me₂ : ℚ} {r r₂ : Status} {st' st₂' : GenState}
    (hd : 0 < sk.step_dist) (hse : ms ≤ me)
    (hd₂ : 0 < sk₂.step_dist) (hse₂ : ms₂ ≤ me₂) (hcross : me ≤ ms₂)
    (h : itersolve_gen_steps_range cb f postCb rangeFuel fsFuel sk ss
          pt ms me = some (r, st'))
    (h₂ : itersolve_gen_steps_range cb f postCb rangeFuel fsFuel sk₂ ss₂
          pt₂ ms₂ me₂ = some (r₂, st₂')) :
    stepChain sk.step_dist sk.commanded_pos st'.log = true
    ∧ timesMono (me - pt) (ms - pt) st'.log = true
    ∧ mtimesAre pt st'.log = true
    ∧ (r = 0 → postCb = none →
        st'.sk.commanded_pos = chainEnd sk.commanded_pos st'.log)
    ∧ (∀ e₁ ∈ st'.log, ∀ e₂ ∈ st₂'.log,
        e₁.mtime + e₁.stime ≤ e₂.mtime + e₂.stime) := by
  unfold itersolve_gen_steps_range at h h₂
  dsimp only at h h₂
  obtain ⟨new, hlog, hchain, htimes, hmt, hcmd⟩ :=
    gen_loop_chain cb f postCb pt ((1/2) * sk.step_dist) (me - pt) fsFuel
      rangeFuel _ r st' (by exact le_refl _) (by exact le_refl _)
      (by dsimp only; linarith) (by norm_num [SEEK_TIME_RESET]) h
  obtain ⟨new₂, hlog₂, hchain₂, htimes₂, hmt₂, hcmd₂⟩ :=
    gen_loop_chain cb f postCb pt₂ ((1/2) * sk₂.step_dist) (me₂ - pt₂) fsFuel
      rangeFuel _ r₂ st₂' (by exact le_refl _) (by exact le_refl _)
      (by dsimp only; linarith) (by norm_num [SEEK_TIME_RESET]) h₂
  have hhalf : (1/2 : ℚ) * sk.step_dist + (1/2) * sk.step_dist
      = sk.step_dist := by ring
  rw [hhalf] at hchain
  have hlog' : st'.log = new := by simpa using hlog
  have hlog₂' : st₂'.log = new₂ := by simpa using hlog₂
  refine ⟨?_, ?_, ?_, ?_, ?_⟩
  · rw [hlog']
    exact hchain
  · rw [hlog']
    exact htimes
  · rw [hlog']
    exact hmt
  · intro h0 hpn
    rw [hlog']
    exact hcmd h0 hpn
  · intro e₁ he₁ e₂ he₂
    rw [hlog'] at he₁
    rw [hlog₂'] at he₂
    have hb₁ := timesMono_bounds (me - pt) new (ms - pt) htimes e₁ he₁
    have hb₂ := timesMono_bounds (me₂ - pt₂) new₂ (ms₂ - pt₂) htimes₂ e₂ he₂
    have hm₁ := mtimesAre_mem pt new hmt e₁ he₁
    have hm₂ := mtimesAre_mem pt₂ new₂ hmt₂ e₂ he₂
    rw [hm₁, hm₂]
    linarith [hb₁.2, hb₂.1]

/-- Closed witness for `c1_step_chain_monotone`: two empty-range solves
at time 0 on a unit-step stepper; both produce the empty log. -/
theorem c1_step_chain_monotone_witness :
    (0:ℚ) < c1wsk.step_dist
    ∧ (0:ℚ) ≤ (0:ℚ)
    ∧ itersolve_gen_steps_range (fun _ => 0) (fun _ => 0) none 1 1 c1wsk {}
        0 0 0
      = some (0, ⟨c1wsk, {}, ⟨0, 0⟩, ⟨0, 0⟩, ⟨0, 0⟩, 1/10000, false, false, []⟩)
    ∧ (stepChain c1wsk.step_dist c1wsk.commanded_pos
          (⟨c1wsk, {}, ⟨0, 0⟩, ⟨0, 0⟩, ⟨0, 0⟩, 1/10000, false, false,
            ([] : List StepAppend)⟩ : GenState).log = true
        ∧ timesMono ((0:ℚ) - 0) ((0:ℚ) - 0)
            (⟨c1wsk, {}, ⟨0, 0⟩, ⟨0, 0⟩, ⟨0, 0⟩, 1/10000, false, false,
              ([] : List StepAppend)⟩ : GenState).log = true) := by
  have hrun : itersolve_gen_steps_range (fun _ => 0) (fun _ => 0) none 1 1
      c1wsk {} 0 0 0
      = some (0, ⟨c1wsk, {}, ⟨0, 0⟩, ⟨0, 0⟩, ⟨0, 0⟩, 1/10000, false, false, []⟩) := by
    norm_num [itersolve_gen_steps_range, gen_loop, gen_widen, sds_flush,
      SEEK_TIME_RESET, timeEps, applyPost, c1wsk]
  refine ⟨by norm_num [c1wsk], le_refl 0, hrun, ?_⟩
  have happ := c1_step_chain_monotone (by norm_num [c1wsk]) (le_refl 0)
    (by norm_num [c1wsk]) (le_refl 0) (le_refl 0) hrun hrun
  exact ⟨happ.1, happ.2.1⟩

theorem c4a_pos (k : ℕ) : 0 < c4a k := by
  induction k with
  | zero => norm_num [c4a]
  | succ k ih =>
    rw [c4a]
    have h1 : (0:ℚ) < ((k:ℚ)^2 + 5*k + 5) * (((k:ℚ)+1) * ((k:ℚ)+4)) := by
      have hk : (0:ℚ) ≤ (k:ℚ) := by positivity
      positivity
    exact mul_pos ih h1

theorem c4c_pos (k : ℕ) : 0 < c4c k := by
  rw [c4c]
  have hk : (0:ℚ) ≤ (k:ℚ) := by positivity
  have h1 : (0:ℚ) < (k:ℚ)^2 + 5*k + 5 := by positivity
  exact mul_pos (c4a_pos k) h1

theorem c4cb_L (k : ℕ) : c4cb (c4L (k+1)) = c4a (k+1) := by
  have hk2 : (0:ℚ) < (k:ℚ) + 2 := by positivity
  have hneg : c4L (k+1) < 0 := by
    rw [c4L]
    push_cast
    have : (0:ℚ) < 1/((k:ℚ)+1+1) := by positivity
    linarith
  rw [c4cb, if_pos hneg]
  have harg : -1 / c4L (k+1) = ((k+2 : ℕ) : ℚ) := by
    rw [c4L]
    push_cast
    rw [div_neg, neg_div, neg_neg, one_div_one_div]
    ring
  rw [harg, Int.floor_natCast, Int.toNat_natCast]
  congr 1

theorem c4cb_H (k : ℕ) : c4cb (c4H (k+1)) = -(c4c (k+1)) := by
  have hpos : (0:ℚ) < 1/((k:ℚ)+1+1) := by positivity
  have h0 : ¬(c4H (k+1) < 0) := by
    rw [c4H]
    push_cast
    linarith
  have h1 : 1 < c4H (k+1) := by
    rw [c4H]
    push_cast
    linarith
  rw [c4cb, if_neg h0, if_pos h1]
  have harg : 1 / (c4H (k+1) - 1) = ((k+2 : ℕ) : ℚ) := by
    rw [c4H]
    push_cast
    rw [add_sub_cancel_left, one_div_one_div]
    push_cast
    ring
  rw [harg, Int.floor_natCast, Int.toNat_natCast]
  congr 2

theorem c4_guessA (k : ℕ) : fs_guess (c4st k) = c4L (k+1) := by
  have ha := c4a_pos k
  have hk : (0:ℚ) ≤ (k:ℚ) := by positivity
  have hq : (0:ℚ) < (k:ℚ)^2 + 5*k + 5 := by positivity
  have hk1 : ((k:ℚ) + 1) ≠ 0 := by positivity
  have hk2 : ((k:ℚ) + 2) ≠ 0 := by positivity
  have hden : -(c4a k * ((k:ℚ)^2 + 5*k + 5)) - c4a k ≠ 0 := by nlinarith
  rw [fs_guess, c4st]
  dsimp only
  rw [c4L, c4L, c4H, c4c]
  push_cast
  rw [div_eq_iff hden]
  field_simp
  ring

theorem c4_guessB (k : ℕ) : fs_guess (c4stA k) = c4H (k+1) := by
  have ha := c4a_pos k
  have hk : (0:ℚ) ≤ (k:ℚ) := by positivity
  have hq : (0:ℚ) < (k:ℚ)^2 + 5*k + 5 := by positivity
  have hq2 : (0:ℚ) < ((k:ℚ)+1) * ((k:ℚ)+4) := by positivity
  have hk1 : ((k:ℚ) + 1) ≠ 0 := by positivity
  have hk2 : ((k:ℚ) + 2) ≠ 0 := by positivity
  have hden : -(c4c k) - c4a (k+1) ≠ 0 := by
    have hc := c4c_pos k
    have ha1 := c4a_pos (k+1)
    nlinarith
  rw [fs_guess, c4stA]
  dsimp only
  rw [c4L, c4H, c4H, c4a, c4c]
  push_cast
  rw [div_eq_iff (by rw [c4c, c4a] at hden; push_cast at hden; exact hden)]
  field_simp
  ring

theorem c4_stepA (k n : ℕ) :
    findStepAux c4cb 0 true (n+1) (c4st k)
      = findStepAux c4cb 0 true n (c4stA k) := by
  have hk1 : (0:ℚ) < 1/((k:ℚ)+1) := by positivity
  have hk2 : (0:ℚ) < 1/((k:ℚ)+1+1) := by positivity
  have hL : c4L (k+1) < 0 := by
    rw [c4L]
    push_cast
    linarith
  have hH : 1 ≤ c4H k := by
    rw [c4H]
    linarith
  have hguard : ¬(|fs_guess (c4st k) - (c4st k).best.time| ≤ timeEps) := by
    rw [c4_guessA]
    have hbt : (c4st k).best.time = c4H k := rfl
    rw [hbt, abs_of_nonpos (by linarith), not_le]
    have ht : timeEps < 1 := by norm_num [timeEps]
    linarith
  rw [findStepAux]
  dsimp only
  rw [if_neg hguard]
  rw [c4_guessA, c4cb_L, sub_zero,
    signbit_nonneg (le_of_lt (c4a_pos (k+1)))]
  rw [if_neg (by simp)]
  rfl

theorem c4_stepB (k n : ℕ) :
    findStepAux c4cb 0 true (n+1) (c4stA k)
      = findStepAux c4cb 0 true n (c4st (k+1)) := by
  have hk1 : (0:ℚ) < 1/((k:ℚ)+1) := by positivity
  have hk2 : (0:ℚ) < 1/((k:ℚ)+1+1) := by positivity
  have hL : c4L (k+1) < 0 := by
    rw [c4L]
    push_cast
    linarith
  have hH : 1 ≤ c4H (k+1) := by
    rw [c4H]
    push_cast
    linarith
  have hguard : ¬(|fs_guess (c4stA k) - (c4stA k).best.time| ≤ timeEps) := by
    rw [c4_guessB]
    have hbt : (c4stA k).best.time = c4L (k+1) := rfl
    rw [hbt, abs_of_nonneg (by linarith), not_le]
    have ht : timeEps < 1 := by norm_num [timeEps]
    linarith
  rw [findStepAux]
  dsimp only
  rw [if_neg hguard]
  rw [c4_guessB, c4cb_H, sub_zero,
    signbit_neg (neg_neg_of_pos (c4c_pos (k+1)))]
  rw [if_pos rfl]
  rfl

/-- The ghost convergence flag of the designed run stays `false` at
every fuel, from every round state. -/
theorem c4_flag_never (n : ℕ) : ∀ k,
    (findStepAux c4cb 0 true n (c4st k)).2 = false
    ∧ (findStepAux c4cb 0 true n (c4stA k)).2 = false := by
  induction n with
  | zero => intro k; exact ⟨rfl, rfl⟩
  | succ n ih =>
    intro k
    rw [c4_stepA, c4_stepB]
    exact ⟨(ih k).2, (ih (k+1)).1⟩

/-- C4 counterexample: a bracketed root-finder call (endpoint signs
differ, total projection) on which the false-position loop never
reaches its convergence break: the ghost flag stays `false` for every
fuel, i.e. the unbounded C loop never terminates.  The projection
`c4cb` drives the guesses to alternate between `-1/(k+2)` and
`1 + 1/(k+2)`, so successive guesses always differ by more than 1
second while the bracket width never drops below 1. -/
theorem c4_false_position_diverges :
    signbit ((-5:ℚ) - 0) ≠ signbit ((1:ℚ) - 0)
    ∧ (∀ fsFuel, itersolve_find_step c4cb fsFuel ⟨-1, 1⟩ ⟨2, -5⟩ 0
        = (findStepAux c4cb 0 true fsFuel ⟨⟨-1, 1⟩, ⟨2, -5⟩, ⟨2, -5⟩⟩).1)
    ∧ (∀ fsFuel,
        (findStepAux c4cb 0 true fsFuel ⟨⟨-1, 1⟩, ⟨2, -5⟩, ⟨2, -5⟩⟩).2 = false) := by
  have hst0 : c4st 0 = ⟨⟨-1, 1⟩, ⟨2, -5⟩, ⟨2, -5⟩⟩ := by
    norm_num [c4st, c4L, c4H, c4a, c4c]
  refine ⟨by norm_num [signbit], ?_, ?_⟩
  · intro fsFuel
    norm_num [itersolve_find_step, signbit]
  · intro fsFuel
    rw [← hst0]
    exact (c4_flag_never fsFuel 0).1

/-- C4 (amended): for an affine projection, a bracketed false-position
call converges: with two iterations of fuel the loop reaches its
convergence break (the first interior guess is the exact root, and the
following guess repeats it, so the guess change is 0 ≤ 1e-9).  Together
with `c4_false_position_diverges`: termination holds for regular
(affine) projections but not for arbitrary ones — the bracket-narrowing
argument alone does not bound the iteration. -/
theorem c4_affine_converges (A B lt ht target : ℚ) (k : ℕ)
    (hbr : signbit (A*lt + B - target) ≠ signbit (A*ht + B - target)) :
    (findStepAux (fun t => A*t + B) target (signbit (A*ht + B - target)) (k+2)
      ⟨⟨lt, A*lt + B - target⟩, ⟨ht, A*ht + B - target⟩, ⟨ht, A*ht + B⟩⟩).2
    = true := by
  have hne : A*lt + B - target ≠ A*ht + B - target := by
    intro he
    exact hbr (by rw [he])
  have hA : A ≠ 0 := by
    intro h0
    apply hne
    rw [h0]
    ring
  have hd0 : (A*ht + B - target) - (A*lt + B - target) ≠ 0 := sub_ne_zero.mpr
    (Ne.symm hne)
  have hg1 : fs_guess ⟨⟨lt, A*lt + B - target⟩, ⟨ht, A*ht + B - target⟩,
      ⟨ht, A*ht + B⟩⟩ = (target - B)/A := by
    rw [fs_guess]
    dsimp only
    rw [div_eq_iff hd0]
    field_simp
    ring
  have hbp : A * ((target - B)/A) + B = target := by field_simp
  rw [findStepAux]
  dsimp only
  by_cases hcv : |fs_guess ⟨⟨lt, A*lt + B - target⟩, ⟨ht, A*ht + B - target⟩,
      ⟨ht, A*ht + B⟩⟩ - ht| ≤ timeEps
  · rw [if_pos hcv]
  · rw [if_neg hcv]
    rw [hg1]
    rw [hbp, sub_self, signbit_nonneg (le_refl (0:ℚ))]
    cases hhs : signbit (A*ht + B - target) with
    | false =>
      rw [if_pos rfl]
      have hlpb : signbit (A*lt + B - target) = true := by
        cases hsb : signbit (A*lt + B - target)
        · exact absurd (hsb.trans hhs.symm) hbr
        · rfl
      have hlp : A*lt + B - target < 0 := by simpa [signbit] using hlpb
      have hlp0 : A*lt + B - target ≠ 0 := ne_of_lt hlp
      rw [findStepAux]
      dsimp only
      have hg2 : fs_guess ⟨⟨lt, A*lt + B - target⟩, ⟨(target - B)/A, 0⟩,
          ⟨(target - B)/A, target⟩⟩ = (target - B)/A := by
        rw [fs_guess]
        dsimp only
        rw [div_eq_iff (show (0:ℚ) - (A*lt + B - target) ≠ 0 by
          rw [zero_sub]; exact neg_ne_zero.mpr hlp0)]
        ring
      rw [hg2]
      rw [if_pos (by rw [sub_self, abs_zero]; norm_num [timeEps])]
    | true =>
      rw [if_neg (by simp)]
      have hhp : A*ht + B - target < 0 := by simpa [signbit] using hhs
      have hhp0 : A*ht + B - target ≠ 0 := ne_of_lt hhp
      rw [findStepAux]
      dsimp only
      have hg2 : fs_guess ⟨⟨(target - B)/A, 0⟩, ⟨ht, A*ht + B - target⟩,
          ⟨(target - B)/A, target⟩⟩ = (target - B)/A := by
        rw [fs_guess]
        dsimp only
        rw [div_eq_iff (show (A*ht + B - target) - 0 ≠ 0 by
          rw [sub_zero]; exact hhp0)]
        ring
      rw [hg2]
      rw [if_pos (by rw [sub_self, abs_zero]; norm_num [timeEps])]

/-- Closed witness for `c4_affine_converges`: the identity projection on
the bracket `[-1, 1]` with target 0. -/
theorem c4_affine_converges_witness :
    (signbit ((1:ℚ)*(-1) + 0 - 0) ≠ signbit ((1:ℚ)*1 + 0 - 0))
    ∧ (findStepAux (fun t => (1:ℚ)*t + 0) 0 (signbit ((1:ℚ)*1 + 0 - 0)) (0+2)
        ⟨⟨-1, (1:ℚ)*(-1) + 0 - 0⟩, ⟨1, (1:ℚ)*1 + 0 - 0⟩, ⟨1, (1:ℚ)*1 + 0⟩⟩).2
      = true := by
  have hbr : signbit ((1:ℚ)*(-1) + 0 - 0) ≠ signbit ((1:ℚ)*1 + 0 - 0) := by
    norm_num [signbit]
  exact ⟨hbr, c4_affine_converges 1 0 (-1) 1 0 0 hbr⟩
